import Mathlib

/-!
Verification of the binary Avro decoder
(`sdk/storage/azure-storage-blob/azure/storage/blob/_shared/avro/avro_io.py`),
the distributed tracing policy
(`sdk/core/azure-core/azure/core/pipeline/policies/_distributed_tracing.py`),
and the delete/recover polling method of the key-vault client, as a shallow
embedding in Lean.

Conventions of the embedding:
 - A byte is a `Nat` (the value `ord` returns for it); a byte source that
   supports `read`/`seek`/`tell` is a `Reader`: the full underlying byte
   list plus the current position.
 - Python exceptions are modelled by `Except AvroError`; each constructor
   of `AvroError` stands for one exception class raised by the source
   (messages are not modelled, only the class).
 - Python's unbounded `int` is `Int` (or `Nat` where the source value is
   known non-negative).
 - Loops that are not structurally recursive carry an explicit fuel
   argument; callers pass enough fuel, and theorems quantify over
   sufficient fuel.
-/

deriving instance DecidableEq for Except

namespace Avro

/-- Exception outcomes of the decoder.  `stopIter` is the `StopIteration`
raised by `BinaryDecoder.read` on an empty read, `assertFail` a failed
`assert`, `avroExc` a `schema.AvroException`, `schemaRes` a
`SchemaResolutionException`, `unicodeErr` a `UnicodeDecodeError` from
`read_utf8`, `indexErr` a Python `IndexError` from list indexing,
`valueErr` a `ValueError` from seeking to a negative position, and
`fuelOut` is the artifact of exhausting interpreter fuel (reachable only
when a caller supplies too little fuel). -/
inductive AvroError where
  | stopIter
  | assertFail
  | avroExc
  | schemaRes
  | unicodeErr
  | indexErr
  | valueErr
  | fuelOut
deriving DecidableEq, Repr

/-- The byte source handed to `BinaryDecoder`: an object with
`read`/`seek`/`tell`.  `data` is the whole underlying byte string and
`pos` the current offset (`tell()`). -/
structure Reader where
  data : List Nat
  pos : Nat
deriving DecidableEq, Repr

/-- `BinaryDecoder.read(n)`: `input_bytes = self.reader.read(n)` returns at
most `n` bytes from the current position; `if n > 0 and not input_bytes:
raise StopIteration`; `assert len(input_bytes) == n` fails on a short
read. -/
def Reader.read (s : Reader) (n : Nat) : Except AvroError (List Nat × Reader) :=
  if n = 0 then .ok ([], s)
  else if s.data.length ≤ s.pos then .error .stopIter
  else if s.pos + n ≤ s.data.length then .ok ((s.data.drop s.pos).take n, ⟨s.data, s.pos + n⟩)
  else .error .assertFail

/-- `ord(self.read(1))`: one byte, or `StopIteration` at end of input.
This is `Reader.read` specialised to `n = 1`. -/
def Reader.readByte (s : Reader) : Except AvroError (Nat × Reader) :=
  if h : s.pos < s.data.length then .ok (s.data.get ⟨s.pos, h⟩, ⟨s.data, s.pos + 1⟩)
  else .error .stopIter

/-- `BinaryDecoder.skip(n)`: `self.reader.seek(self.reader.tell() + n)`.
A negative target position raises `ValueError`; seeking past the end is
allowed. -/
def Reader.skip (s : Reader) (n : Int) : Except AvroError Reader :=
  if (s.pos : Int) + n < 0 then .error .valueErr
  else .ok ⟨s.data, ((s.pos : Int) + n).toNat⟩

/-- The final line of `read_long`: `datum = (n >> 1) ^ -(n & 1)`, the
zig-zag decoding of the unsigned accumulator `n`. -/
def zigzag (n : Nat) : Int :=
  Int.xor ((n >>> 1 : Nat) : Int) (-((n &&& 1 : Nat) : Int))

/-- The `while (b & 0x80) != 0` loop of `read_long`, with the current byte
`b`, accumulator `n` and shift amount already in hand.  `fuel` bounds the
number of remaining iterations; callers pass the number of bytes left in
the reader, which suffices because every iteration consumes one byte (so
when fuel runs out the next read would raise `StopIteration` anyway). -/
def read_long_loop (fuel : Nat) (s : Reader) (b n shift : Nat) : Except AvroError (Nat × Reader) :=
  if b &&& 0x80 = 0 then .ok (n, s)
  else
    match fuel, s.readByte with
    | 0, _ => .error .stopIter
    | _+1, .error e => .error e
    | f+1, .ok (b2, s2) => read_long_loop f s2 b2 (n ||| ((b2 &&& 0x7F) <<< shift)) (shift + 7)

/-- `BinaryDecoder.read_long`: variable-length zig-zag varint.
`b = ord(self.read(1)); n = b & 0x7F; shift = 7;` then the continuation
loop, then zig-zag decoding. -/
def read_long (s : Reader) : Except AvroError (Int × Reader) := do
  let (b, s1) ← s.readByte
  let (n, s2) ← read_long_loop (s1.data.length - s1.pos) s1 b (b &&& 0x7F) 7
  .ok (zigzag n, s2)

/-- `BinaryDecoder.read_int`: `return self.read_long()`. -/
def read_int (s : Reader) : Except AvroError (Int × Reader) :=
  read_long s

/-- The `while (b & 0x80) != 0` loop of `skip_long`: read bytes until one
has the continuation bit clear.  Fuel as in `read_long_loop`. -/
def skip_long_loop (fuel : Nat) (s : Reader) (b : Nat) : Except AvroError Reader :=
  if b &&& 0x80 = 0 then .ok s
  else
    match fuel, s.readByte with
    | 0, _ => .error .stopIter
    | _+1, .error e => .error e
    | f+1, .ok (b2, s2) => skip_long_loop f s2 b2

/-- `BinaryDecoder.skip_long`: read bytes while the continuation bit is
set, discarding them. -/
def skip_long (s : Reader) : Except AvroError Reader := do
  let (b, s1) ← s.readByte
  skip_long_loop (s1.data.length - s1.pos) s1 b

/-- `BinaryDecoder.skip_int`: `self.skip_long()`. -/
def skip_int (s : Reader) : Except AvroError Reader :=
  skip_long s

/-- `BinaryDecoder.read_boolean`: one byte, `1` is true, `0` is false, any
other value raises `AvroException`. -/
def read_boolean (s : Reader) : Except AvroError (Bool × Reader) := do
  let (b, s1) ← s.readByte
  if b = 1 then .ok (true, s1)
  else if b = 0 then .ok (false, s1)
  else .error .avroExc

/-- `BinaryDecoder.read_bytes`: `nbytes = self.read_long(); assert nbytes
>= 0; return self.read(nbytes)`. -/
def read_bytes (s : Reader) : Except AvroError (List Nat × Reader) := do
  let (nbytes, s1) ← read_long s
  if nbytes < 0 then .error .assertFail
  else s1.read nbytes.toNat

/-- One-byte continuation check of the UTF-8 validator. -/
def utf8ContOk (c : Nat) : Bool :=
  0x80 ≤ c && c ≤ 0xBF

/-- Validity of a byte list as UTF-8 (RFC 3629: no overlong forms, no
surrogates, at most U+10FFFF), the check Python's `bytes.decode("utf-8")`
performs in `read_utf8`. -/
def utf8Valid : List Nat → Bool
  | [] => true
  | b :: rest =>
    if b ≤ 0x7F then utf8Valid rest
    else if 0xC2 ≤ b && b ≤ 0xDF then
      match rest with
      | c1 :: r => utf8ContOk c1 && utf8Valid r
      | [] => false
    else if b = 0xE0 then
      match rest with
      | c1 :: c2 :: r => (0xA0 ≤ c1 && c1 ≤ 0xBF) && utf8ContOk c2 && utf8Valid r
      | _ => false
    else if (0xE1 ≤ b && b ≤ 0xEC) || (0xEE ≤ b && b ≤ 0xEF) then
      match rest with
      | c1 :: c2 :: r => utf8ContOk c1 && utf8ContOk c2 && utf8Valid r
      | _ => false
    else if b = 0xED then
      match rest with
      | c1 :: c2 :: r => (0x80 ≤ c1 && c1 ≤ 0x9F) && utf8ContOk c2 && utf8Valid r
      | _ => false
    else if b = 0xF0 then
      match rest with
      | c1 :: c2 :: c3 :: r => (0x90 ≤ c1 && c1 ≤ 0xBF) && utf8ContOk c2 && utf8ContOk c3 && utf8Valid r
      | _ => false
    else if 0xF1 ≤ b && b ≤ 0xF3 then
      match rest with
      | c1 :: c2 :: c3 :: r => utf8ContOk c1 && utf8ContOk c2 && utf8ContOk c3 && utf8Valid r
      | _ => false
    else if b = 0xF4 then
      match rest with
      | c1 :: c2 :: c3 :: r => (0x80 ≤ c1 && c1 ≤ 0x8F) && utf8ContOk c2 && utf8ContOk c3 && utf8Valid r
      | _ => false
    else false

/-- `BinaryDecoder.read_utf8`: `read_bytes` then `decode("utf-8")`, which
raises `UnicodeDecodeError` on invalid UTF-8.  The decoded string is
represented here by its UTF-8 byte list (the decode map is injective on
valid input, so nothing is lost). -/
def read_utf8 (s : Reader) : Except AvroError (List Nat × Reader) := do
  let (bs, s1) ← read_bytes s
  if utf8Valid bs then .ok (bs, s1) else .error .unicodeErr

/-- `BinaryDecoder.skip_bytes`: `self.skip(self.read_long())`. -/
def skip_bytes (s : Reader) : Except AvroError Reader := do
  let (n, s1) ← read_long s
  s1.skip n

/-- `BinaryDecoder.skip_utf8`: `self.skip_bytes()`. -/
def skip_utf8 (s : Reader) : Except AvroError Reader :=
  skip_bytes s

/-!  The varint specification used by the claims: a well-formed varint is
zero or more bytes with the continuation bit `0x80` set followed by one
byte with it clear, and the unsigned accumulator collects the low 7 bits
of each byte, least-significant first. -/

/-- Well-formed varint byte sequences. -/
inductive WfVarint : List Nat → Prop where
  | last (b : Nat) : b &&& 0x80 = 0 → WfVarint [b]
  | cont (b : Nat) (bs : List Nat) : b &&& 0x80 ≠ 0 → WfVarint bs → WfVarint (b :: bs)

/-- The unsigned accumulator of a varint: byte `i` contributes its low
7 bits at bit position `7 * i`. -/
def varintAccum : List Nat → Nat
  | [] => 0
  | b :: rest => (b &&& 0x7F) ||| (varintAccum rest <<< 7)

/-- The signed value a well-formed varint denotes. -/
def varintVal (bs : List Nat) : Int :=
  zigzag (varintAccum bs)

theorem or_shiftLeft_distrib (x y n : Nat) : (x ||| y) <<< n = (x <<< n) ||| (y <<< n) := by
  apply Nat.eq_of_testBit_eq
  intro i
  simp [Nat.testBit_shiftLeft, Nat.testBit_or, Bool.and_or_distrib_left]

theorem drop_cons_drop {α : Type} {data : List α} {pos : Nat} {a : α} {t : List α}
    (h : data.drop pos = a :: t) : data.drop (pos + 1) = t := by
  have h1 : (data.drop pos).drop 1 = t := by rw [h]; rfl
  rwa [List.drop_drop] at h1

theorem getElem_of_drop_cons {data : List Nat} {pos : Nat} {a : Nat} {t : List Nat}
    (h : data.drop pos = a :: t) : ∃ hp : pos < data.length, data.get ⟨pos, hp⟩ = a := by
  have h1 : data[pos]? = some a := by
    rw [← List.head?_drop, h]; rfl
  rcases List.getElem?_eq_some.mp h1 with ⟨hp, he⟩
  exact ⟨hp, he⟩

theorem readByte_spec {data : List Nat} {pos : Nat} {b : Nat} {t : List Nat}
    (h : data.drop pos = b :: t) :
    Reader.readByte ⟨data, pos⟩ = .ok (b, ⟨data, pos + 1⟩) := by
  rcases getElem_of_drop_cons h with ⟨hp, he⟩
  simp only [Reader.readByte, dif_pos hp, he]

theorem read_long_loop_stop (fuel : Nat) (s : Reader) (b n shift : Nat)
    (hb : b &&& 0x80 = 0) : read_long_loop fuel s b n shift = .ok (n, s) := by
  rw [read_long_loop.eq_def, if_pos hb]

theorem read_long_loop_step (f : Nat) (s : Reader) (b n shift b2 : Nat) (s2 : Reader)
    (hb : b &&& 0x80 ≠ 0) (h : s.readByte = .ok (b2, s2)) :
    read_long_loop (f + 1) s b n shift =
      read_long_loop f s2 b2 (n ||| ((b2 &&& 0x7F) <<< shift)) (shift + 7) := by
  rw [read_long_loop.eq_def, if_neg hb, h]

theorem read_long_loop_spec (bs : List Nat) :
    ∀ b : Nat, WfVarint (b :: bs) →
    ∀ (data : List Nat) (pos : Nat) (rest : List Nat) (fuel : Nat),
      data.drop pos = bs ++ rest → bs.length ≤ fuel → ∀ n shift : Nat,
      read_long_loop fuel ⟨data, pos⟩ b n shift =
        .ok (n ||| (varintAccum bs <<< shift), ⟨data, pos + bs.length⟩) := by
  induction bs with
  | nil =>
    intro b hwf data pos rest fuel hdrop hfuel n shift
    have hb : b &&& 0x80 = 0 := by
      cases hwf with
      | last _ h => exact h
      | cont _ _ h htail => cases htail
    rw [read_long_loop_stop fuel _ b n shift hb]
    simp [varintAccum, Nat.zero_shiftLeft, Nat.or_zero]
  | cons b2 t ih =>
    intro b hwf data pos rest fuel hdrop hfuel n shift
    have hb : b &&& 0x80 ≠ 0 := by
      cases hwf with
      | cont _ _ h _ => exact h
    have hwf2 : WfVarint (b2 :: t) := by
      cases hwf with
      | cont _ _ _ h => exact h
    obtain ⟨f, rfl⟩ : ∃ f, fuel = f + 1 := by
      cases fuel with
      | zero => simp at hfuel
      | succ f => exact ⟨f, rfl⟩
    have hread : Reader.readByte ⟨data, pos⟩ = .ok (b2, ⟨data, pos + 1⟩) :=
      readByte_spec (by rw [hdrop]; rfl)
    have hdrop2 : data.drop (pos + 1) = t ++ rest :=
      drop_cons_drop (by rw [hdrop]; rfl)
    have hfuel2 : t.length ≤ f := by
      simp only [List.length_cons] at hfuel; omega
    rw [read_long_loop_step f _ b n shift b2 _ hb hread]
    rw [ih b2 hwf2 data (pos + 1) rest f hdrop2 hfuel2]
    have hacc : n ||| (b2 &&& 0x7F) <<< shift ||| varintAccum t <<< (shift + 7) =
        n ||| varintAccum (b2 :: t) <<< shift := by
      rw [Nat.or_assoc]
      have : varintAccum (b2 :: t) <<< shift =
          (b2 &&& 0x7F) <<< shift ||| varintAccum t <<< (shift + 7) := by
        show ((b2 &&& 0x7F) ||| (varintAccum t <<< 7)) <<< shift = _
        have h7 : shift + 7 = 7 + shift := by omega
        rw [or_shiftLeft_distrib, h7, Nat.shiftLeft_add]
      rw [this]
    have hpos : pos + 1 + t.length = pos + (b2 :: t).length := by
      simp only [List.length_cons]; omega
    rw [hacc, hpos]

theorem read_long_spec {bs : List Nat} (hwf : WfVarint bs) :
    ∀ (data : List Nat) (pos : Nat) (rest : List Nat),
      data.drop pos = bs ++ rest →
      read_long ⟨data, pos⟩ = .ok (varintVal bs, ⟨data, pos + bs.length⟩) := by
  intro data pos rest hdrop
  obtain ⟨b, t, rfl⟩ : ∃ b t, bs = b :: t := by
    cases hwf with
    | last b h => exact ⟨b, [], rfl⟩
    | cont b bs h htail => exact ⟨b, bs, rfl⟩
  have hread : Reader.readByte ⟨data, pos⟩ = .ok (b, ⟨data, pos + 1⟩) :=
    readByte_spec (by rw [hdrop]; rfl)
  have hdrop2 : data.drop (pos + 1) = t ++ rest :=
    drop_cons_drop (by rw [hdrop]; rfl)
  have hfuel : t.length ≤ data.length - (pos + 1) := by
    have := congrArg List.length hdrop2
    simp only [List.length_drop, List.length_append] at this
    omega
  rw [read_long, hread]
  show (read_long_loop (data.length - (pos + 1)) ⟨data, pos + 1⟩ b (b &&& 0x7F) 7).bind _ = _
  rw [read_long_loop_spec t b hwf data (pos + 1) rest (data.length - (pos + 1)) hdrop2 hfuel]
  show Except.ok (zigzag ((b &&& 0x7F) ||| varintAccum t <<< 7), _) = _
  rw [varintVal]
  have hacc : (b &&& 0x7F) ||| varintAccum t <<< 7 = varintAccum (b :: t) := by
    simp [varintAccum]
  have hpos : pos + 1 + t.length = pos + (b :: t).length := by
    simp only [List.length_cons]; omega
  rw [hacc, hpos]

theorem skip_long_loop_stop (fuel : Nat) (s : Reader) (b : Nat)
    (hb : b &&& 0x80 = 0) : skip_long_loop fuel s b = .ok s := by
  rw [skip_long_loop.eq_def, if_pos hb]

theorem skip_long_loop_step (f : Nat) (s : Reader) (b b2 : Nat) (s2 : Reader)
    (hb : b &&& 0x80 ≠ 0) (h : s.readByte = .ok (b2, s2)) :
    skip_long_loop (f + 1) s b = skip_long_loop f s2 b2 := by
  rw [skip_long_loop.eq_def, if_neg hb, h]

theorem skip_long_loop_spec (bs : List Nat) :
    ∀ b : Nat, WfVarint (b :: bs) →
    ∀ (data : List Nat) (pos : Nat) (rest : List Nat) (fuel : Nat),
      data.drop pos = bs ++ rest → bs.length ≤ fuel →
      skip_long_loop fuel ⟨data, pos⟩ b = .ok ⟨data, pos + bs.length⟩ := by
  induction bs with
  | nil =>
    intro b hwf data pos rest fuel hdrop hfuel
    have hb : b &&& 0x80 = 0 := by
      cases hwf with
      | last _ h => exact h
      | cont _ _ h htail => cases htail
    rw [skip_long_loop_stop fuel _ b hb]
    simp
  | cons b2 t ih =>
    intro b hwf data pos rest fuel hdrop hfuel
    have hb : b &&& 0x80 ≠ 0 := by
      cases hwf with
      | cont _ _ h _ => exact h
    have hwf2 : WfVarint (b2 :: t) := by
      cases hwf with
      | cont _ _ _ h => exact h
    obtain ⟨f, rfl⟩ : ∃ f, fuel = f + 1 := by
      cases fuel with
      | zero => simp at hfuel
      | succ f => exact ⟨f, rfl⟩
    have hread : Reader.readByte ⟨data, pos⟩ = .ok (b2, ⟨data, pos + 1⟩) :=
      readByte_spec (by rw [hdrop]; rfl)
    have hdrop2 : data.drop (pos + 1) = t ++ rest :=
      drop_cons_drop (by rw [hdrop]; rfl)
    have hfuel2 : t.length ≤ f := by
      simp only [List.length_cons] at hfuel; omega
    rw [skip_long_loop_step f _ b b2 _ hb hread]
    rw [ih b2 hwf2 data (pos + 1) rest f hdrop2 hfuel2]
    have hpos : pos + 1 + t.length = pos + (b2 :: t).length := by
      simp only [List.length_cons]; omega
    rw [hpos]

theorem skip_long_spec {bs : List Nat} (hwf : WfVarint bs) :
    ∀ (data : List Nat) (pos : Nat) (rest : List Nat),
      data.drop pos = bs ++ rest →
      skip_long ⟨data, pos⟩ = .ok ⟨data, pos + bs.length⟩ := by
  intro data pos rest hdrop
  obtain ⟨b, t, rfl⟩ : ∃ b t, bs = b :: t := by
    cases hwf with
    | last b h => exact ⟨b, [], rfl⟩
    | cont b bs h htail => exact ⟨b, bs, rfl⟩
  have hread : Reader.readByte ⟨data, pos⟩ = .ok (b, ⟨data, pos + 1⟩) :=
    readByte_spec (by rw [hdrop]; rfl)
  have hdrop2 : data.drop (pos + 1) = t ++ rest :=
    drop_cons_drop (by rw [hdrop]; rfl)
  have hfuel : t.length ≤ data.length - (pos + 1) := by
    have := congrArg List.length hdrop2
    simp only [List.length_drop, List.length_append] at this
    omega
  rw [skip_long, hread]
  show skip_long_loop (data.length - (pos + 1)) ⟨data, pos + 1⟩ b = _
  rw [skip_long_loop_spec t b hwf data (pos + 1) rest (data.length - (pos + 1)) hdrop2 hfuel]
  congr 2
  simp only [List.length_cons]
  omega

/-- C1: for every byte stream whose next bytes form a well-formed varint
(zero or more bytes with the `0x80` continuation bit set, then one byte
without it), `read_long` consumes exactly those bytes, accumulates 7 bits
per byte from the low end into an unsigned value `accum`, and returns
`(accum >> 1) XOR -(accum & 1)`, undoing the zig-zag mapping; `read_int`
returns the identical value with no additional width check. -/
theorem c1_read_long_varint (bs : List Nat) (hwf : WfVarint bs)
    (data : List Nat) (pos : Nat) (rest : List Nat)
    (hdrop : data.drop pos = bs ++ rest) :
    read_long ⟨data, pos⟩ =
      .ok (Int.xor ((varintAccum bs >>> 1 : Nat) : Int) (-((varintAccum bs &&& 1 : Nat) : Int)),
        ⟨data, pos + bs.length⟩) ∧
    read_int ⟨data, pos⟩ = read_long ⟨data, pos⟩ := by
  refine ⟨?_, rfl⟩
  rw [read_long_spec hwf data pos rest hdrop]
  rfl

/-- C1 witness: the two-byte varint `0x96 0x01` (accumulator 150) decodes
to 75 at position 0 of the stream `[0x96, 0x01, 0xFF]`, consuming exactly
two bytes. -/
theorem c1_read_long_varint_witness :
    read_long ⟨[0x96, 0x01, 0xFF], 0⟩ =
      .ok (Int.xor ((varintAccum [0x96, 0x01] >>> 1 : Nat) : Int)
        (-((varintAccum [0x96, 0x01] &&& 1 : Nat) : Int)), ⟨[0x96, 0x01, 0xFF], 0 + 2⟩) ∧
    read_int ⟨[0x96, 0x01, 0xFF], 0⟩ = read_long ⟨[0x96, 0x01, 0xFF], 0⟩ :=
  c1_read_long_varint [0x96, 0x01]
    (WfVarint.cont 0x96 [0x01] (by decide) (WfVarint.last 0x01 (by decide)))
    [0x96, 0x01, 0xFF] 0 [0xFF] (by decide)

/-!  The `DatumReader`: schema-driven decoding.  The source dispatches on
`writer_schema.type`, a string; the schema kinds form the tagged variant
below (`"union"`/`"error_union"` behave identically and are one
constructor, likewise `"record"`/`"error"`/`"request"`). -/

/-- Avro writer schemas, as dispatched on by `DatumReader.read_data` and
`DatumReader.skip_data`. -/
inductive AvroSchema where
  | null
  | boolean
  | string
  | int
  | long
  | float
  | double
  | bytes
  | fixed (size : Nat)
  | enum (symbols : List String)
  | array (items : AvroSchema)
  | map (values : AvroSchema)
  | union (schemas : List AvroSchema)
  | record (fields : List (String × AvroSchema))

/-- Decoded Avro values.  Strings and map keys are represented by their
UTF-8 bytes (see `read_utf8`); floats and doubles by their raw 4/8 wire
bytes (the IEEE-754 bit pattern `STRUCT_FLOAT`/`STRUCT_DOUBLE` unpack,
which is injective on the wire bytes). -/
inductive AvroValue where
  | null
  | boolean (b : Bool)
  | string (bytes : List Nat)
  | int (i : Int)
  | float (raw : List Nat)
  | double (raw : List Nat)
  | bytes (bs : List Nat)
  | fixed (bs : List Nat)
  | enum (sym : String)
  | array (items : List AvroValue)
  | map (pairs : List (List Nat × AvroValue))
  | record (fields : List (String × AvroValue))

/-- Python list indexing `xs[i]`: a negative index counts from the end;
an index out of `[-len, len)` raises `IndexError`. -/
def pyGet {α : Type} (xs : List α) (i : Int) : Except AvroError α :=
  let j : Int := if i < 0 then (xs.length : Int) + i else i
  if h : 0 ≤ j ∧ j.toNat < xs.length then .ok (xs.get ⟨j.toNat, h.2⟩) else .error .indexErr

/-- `DatumReader.read_enum`: `index_of_symbol = decoder.read_int()`; an
index `>= len(symbols)` raises `SchemaResolutionException`; otherwise
`writer_schema.symbols[index_of_symbol]` (Python indexing, so a negative
index counts from the end). -/
def read_enum (symbols : List String) (s : Reader) : Except AvroError (String × Reader) := do
  let (i, s1) ← read_int s
  if (symbols.length : Int) ≤ i then .error .schemaRes
  else do
    let sym ← pyGet symbols i
    .ok (sym, s1)

/-- `DatumReader.skip_enum`: `decoder.skip_int()`. -/
def skip_enum (s : Reader) : Except AvroError Reader :=
  skip_int s

/-- `read_items[key] = value` on a Python dict kept as an association
list in insertion order: an existing key is updated in place, a new key
is appended. -/
def dictInsert (m : List (List Nat × AvroValue)) (k : List Nat) (v : AvroValue) :
    List (List Nat × AvroValue) :=
  if m.any (fun p => p.1 == k) then m.map (fun p => if p.1 == k then (k, v) else p)
  else m ++ [(k, v)]

mutual

/-- `DatumReader.read_data`: dispatch on the writer schema type.  The
array/map/record cases call the block/field loops with their `read_items`
accumulator (the source's `self.read_array` / `self.read_map` /
`self.read_record` bodies, with the loop split into the helper functions
below).  `fuel` bounds the recursion depth and block-loop iterations; all
theorems quantify over sufficient fuel. -/
def read_data : Nat → AvroSchema → Reader → Except AvroError (AvroValue × Reader)
  | 0, _, _ => .error .fuelOut
  | f+1, ws, s =>
    match ws with
    | .null => .ok (.null, s)
    | .boolean => do
        let (b, s1) ← read_boolean s
        .ok (.boolean b, s1)
    | .string => do
        let (bs, s1) ← read_utf8 s
        .ok (.string bs, s1)
    | .int => do
        let (i, s1) ← read_int s
        .ok (.int i, s1)
    | .long => do
        let (i, s1) ← read_long s
        .ok (.int i, s1)
    | .float => do
        let (bs, s1) ← s.read 4
        .ok (.float bs, s1)
    | .double => do
        let (bs, s1) ← s.read 8
        .ok (.double bs, s1)
    | .bytes => do
        let (bs, s1) ← read_bytes s
        .ok (.bytes bs, s1)
    | .fixed size => do
        let (bs, s1) ← s.read size
        .ok (.fixed bs, s1)
    | .enum symbols => do
        let (sym, s1) ← read_enum symbols s
        .ok (.enum sym, s1)
    | .array items => do
        let (vs, s1) ← read_array_blocks f items s []
        .ok (.array vs, s1)
    | .map values => do
        let (ps, s1) ← read_map_blocks f values s []
        .ok (.map ps, s1)
    | .union schemas => do
        -- `read_union`: `index_of_schema = int(decoder.read_long())`
        let (i, s1) ← read_long s
        if (schemas.length : Int) ≤ i then .error .schemaRes
        else do
          let branch ← pyGet schemas i
          read_data f branch s1
    | .record fields => do
        let (fs, s1) ← read_record_fields f fields s []
        .ok (.record fs, s1)

/-- The block loop of `DatumReader.read_array`: read a block count; 0
terminates; a negative count is negated and followed by a byte-size long
that is read and discarded; then the items of the block are decoded and
the loop continues with the next block count. -/
def read_array_blocks : Nat → AvroSchema → Reader → List AvroValue →
    Except AvroError (List AvroValue × Reader)
  | 0, _, _, _ => .error .fuelOut
  | f+1, ws, s, acc => do
      let (block_count, s1) ← read_long s
      if block_count = 0 then .ok (acc, s1)
      else if block_count < 0 then do
        let (_, s2) ← read_long s1
        let (acc2, s3) ← read_array_items f ws (-block_count).toNat s2 acc
        read_array_blocks f ws s3 acc2
      else do
        let (acc2, s3) ← read_array_items f ws block_count.toNat s1 acc
        read_array_blocks f ws s3 acc2

/-- The `for _ in range(block_count)` loop of `read_array`:
`read_items.append(self.read_data(writer_schema.items, decoder))`. -/
def read_array_items : Nat → AvroSchema → Nat → Reader → List AvroValue →
    Except AvroError (List AvroValue × Reader)
  | _, _, 0, s, acc => .ok (acc, s)
  | 0, _, _+1, _, _ => .error .fuelOut
  | f+1, ws, k+1, s, acc => do
      let (v, s1) ← read_data f ws s
      read_array_items f ws k s1 (acc ++ [v])

/-- The block loop of `DatumReader.read_map`, structured exactly like
`read_array_blocks`. -/
def read_map_blocks : Nat → AvroSchema → Reader → List (List Nat × AvroValue) →
    Except AvroError (List (List Nat × AvroValue) × Reader)
  | 0, _, _, _ => .error .fuelOut
  | f+1, ws, s, acc => do
      let (block_count, s1) ← read_long s
      if block_count = 0 then .ok (acc, s1)
      else if block_count < 0 then do
        let (_, s2) ← read_long s1
        let (acc2, s3) ← read_map_pairs f ws (-block_count).toNat s2 acc
        read_map_blocks f ws s3 acc2
      else do
        let (acc2, s3) ← read_map_pairs f ws block_count.toNat s1 acc
        read_map_blocks f ws s3 acc2

/-- The pair loop of `read_map`: `key = decoder.read_utf8();
read_items[key] = self.read_data(writer_schema.values, decoder)`. -/
def read_map_pairs : Nat → AvroSchema → Nat → Reader → List (List Nat × AvroValue) →
    Except AvroError (List (List Nat × AvroValue) × Reader)
  | _, _, 0, s, acc => .ok (acc, s)
  | 0, _, _+1, _, _ => .error .fuelOut
  | f+1, ws, k+1, s, acc => do
      let (key, s1) ← read_utf8 s
      let (v, s2) ← read_data f ws s1
      read_map_pairs f ws k s2 (dictInsert acc key v)

/-- The field loop of `DatumReader.read_record`: decode each field in the
writer schema's declared order. -/
def read_record_fields : Nat → List (String × AvroSchema) → Reader →
    List (String × AvroValue) → Except AvroError (List (String × AvroValue) × Reader)
  | _, [], s, acc => .ok (acc, s)
  | 0, _ :: _, _, _ => .error .fuelOut
  | f+1, (fname, ftype) :: rest, s, acc => do
      let (v, s1) ← read_data f ftype s
      read_record_fields f rest s1 (acc ++ [(fname, v)])

end

mutual

/-- `DatumReader.skip_data`: dispatch on the writer schema type, advancing
the reader without materialising a value. -/
def skip_data : Nat → AvroSchema → Reader → Except AvroError Reader
  | 0, _, _ => .error .fuelOut
  | f+1, ws, s =>
    match ws with
    | .null => .ok s
    | .boolean => s.skip 1
    | .string => skip_utf8 s
    | .int => skip_int s
    | .long => skip_long s
    | .float => s.skip 4
    | .double => s.skip 8
    | .bytes => skip_bytes s
    | .fixed size => s.skip (size : Int)
    | .enum _ => skip_enum s
    | .array items => skip_array_blocks f items s
    | .map values => skip_map_blocks f values s
    | .union schemas => do
        -- `skip_union`: same index read and range check as `read_union`
        let (i, s1) ← read_long s
        if (schemas.length : Int) ≤ i then .error .schemaRes
        else do
          let branch ← pyGet schemas i
          skip_data f branch s1
    | .record fields => skip_record_fields f fields s

/-- The block loop of `DatumReader.skip_array`: a negative block count is
followed by a byte-size long and the block is skipped wholesale with
`decoder.skip(block_size)`; a positive count skips the items one by
one. -/
def skip_array_blocks : Nat → AvroSchema → Reader → Except AvroError Reader
  | 0, _, _ => .error .fuelOut
  | f+1, ws, s => do
      let (block_count, s1) ← read_long s
      if block_count = 0 then .ok s1
      else if block_count < 0 then do
        let (block_size, s2) ← read_long s1
        let s3 ← s2.skip block_size
        skip_array_blocks f ws s3
      else do
        let s3 ← skip_array_items f ws block_count.toNat s1
        skip_array_blocks f ws s3

/-- The `for _ in range(block_count)` loop of `skip_array`:
`self.skip_data(writer_schema.items, decoder)`. -/
def skip_array_items : Nat → AvroSchema → Nat → Reader → Except AvroError Reader
  | _, _, 0, s => .ok s
  | 0, _, _+1, _ => .error .fuelOut
  | f+1, ws, k+1, s => do
      let s1 ← skip_data f ws s
      skip_array_items f ws k s1

/-- The block loop of `DatumReader.skip_map`, structured exactly like
`skip_array_blocks`. -/
def skip_map_blocks : Nat → AvroSchema → Reader → Except AvroError Reader
  | 0, _, _ => .error .fuelOut
  | f+1, ws, s => do
      let (block_count, s1) ← read_long s
      if block_count = 0 then .ok s1
      else if block_count < 0 then do
        let (block_size, s2) ← read_long s1
        let s3 ← s2.skip block_size
        skip_map_blocks f ws s3
      else do
        let s3 ← skip_map_pairs f ws block_count.toNat s1
        skip_map_blocks f ws s3

/-- The pair loop of `skip_map`: `decoder.skip_utf8();
self.skip_data(writer_schema.values, decoder)`. -/
def skip_map_pairs : Nat → AvroSchema → Nat → Reader → Except AvroError Reader
  | _, _, 0, s => .ok s
  | 0, _, _+1, _ => .error .fuelOut
  | f+1, ws, k+1, s => do
      let s1 ← skip_utf8 s
      let s2 ← skip_data f ws s1
      skip_map_pairs f ws k s2

/-- The field loop of `DatumReader.skip_record`: skip each field in the
writer schema's declared order. -/
def skip_record_fields : Nat → List (String × AvroSchema) → Reader →
    Except AvroError Reader
  | _, [], s => .ok s
  | 0, _ :: _, _ => .error .fuelOut
  | f+1, (_, ftype) :: rest, s => do
      let s1 ← skip_data f ftype s
      skip_record_fields f rest s1

end

/-!  Well-formed encodings.  `Enc k bs` says the byte list `bs` is a
well-formed Avro binary encoding of the shape `k`: one value of a schema,
a run of array items, a block sequence, and so on.  Negative-count blocks
must carry the correct byte size of their items, as the writer emits
them; this is what lets `skip` jump the block without decoding. -/

/-- The shapes of byte chunks appearing in an encoding. -/
inductive EKind where
  | val (ws : AvroSchema)
  | items (ws : AvroSchema) (k : Nat)
  | blocks (ws : AvroSchema)
  | pairs (ws : AvroSchema) (k : Nat)
  | mblocks (ws : AvroSchema)
  | fields (fs : List (String × AvroSchema))

/-- `Enc k bs`: `bs` is a well-formed encoding of shape `k`. -/
inductive Enc : EKind → List Nat → Prop where
  | null : Enc (.val .null) []
  | boolean (b : Nat) : b = 0 ∨ b = 1 → Enc (.val .boolean) [b]
  | int (bs : List Nat) : WfVarint bs → Enc (.val .int) bs
  | long (bs : List Nat) : WfVarint bs → Enc (.val .long) bs
  | float (bs : List Nat) : bs.length = 4 → Enc (.val .float) bs
  | double (bs : List Nat) : bs.length = 8 → Enc (.val .double) bs
  | bytes (lbs body : List Nat) : WfVarint lbs → varintVal lbs = (body.length : Int) →
      Enc (.val .bytes) (lbs ++ body)
  | string (lbs body : List Nat) : WfVarint lbs → varintVal lbs = (body.length : Int) →
      utf8Valid body = true → Enc (.val .string) (lbs ++ body)
  | fixed (size : Nat) (body : List Nat) : body.length = size →
      Enc (.val (.fixed size)) body
  | enum (symbols : List String) (bs : List Nat) (idx : Nat) : WfVarint bs →
      varintVal bs = (idx : Int) → idx < symbols.length →
      Enc (.val (.enum symbols)) bs
  | union (schemas : List AvroSchema) (ibs body : List Nat) (idx : Nat)
      (h : idx < schemas.length) : WfVarint ibs → varintVal ibs = (idx : Int) →
      Enc (.val (schemas.get ⟨idx, h⟩)) body →
      Enc (.val (.union schemas)) (ibs ++ body)
  | array (ws : AvroSchema) (bs : List Nat) : Enc (.blocks ws) bs →
      Enc (.val (.array ws)) bs
  | mapVal (ws : AvroSchema) (bs : List Nat) : Enc (.mblocks ws) bs →
      Enc (.val (.map ws)) bs
  | record (fs : List (String × AvroSchema)) (bs : List Nat) : Enc (.fields fs) bs →
      Enc (.val (.record fs)) bs
  | itemsNil (ws : AvroSchema) : Enc (.items ws 0) []
  | itemsCons (ws : AvroSchema) (k : Nat) (bs1 bs2 : List Nat) :
      Enc (.val ws) bs1 → Enc (.items ws k) bs2 → Enc (.items ws (k + 1)) (bs1 ++ bs2)
  | blocksNil (ws : AvroSchema) (zbs : List Nat) : WfVarint zbs → varintVal zbs = 0 →
      Enc (.blocks ws) zbs
  | blocksPos (ws : AvroSchema) (cbs ibs rbs : List Nat) (k : Nat) :
      WfVarint cbs → varintVal cbs = (k : Int) → 0 < k →
      Enc (.items ws k) ibs → Enc (.blocks ws) rbs →
      Enc (.blocks ws) (cbs ++ ibs ++ rbs)
  | blocksNeg (ws : AvroSchema) (cbs sbs ibs rbs : List Nat) (k : Nat) :
      WfVarint cbs → varintVal cbs = -(k : Int) → 0 < k →
      WfVarint sbs → varintVal sbs = (ibs.length : Int) →
      Enc (.items ws k) ibs → Enc (.blocks ws) rbs →
      Enc (.blocks ws) (cbs ++ sbs ++ ibs ++ rbs)
  | pairsNil (ws : AvroSchema) : Enc (.pairs ws 0) []
  | pairsCons (ws : AvroSchema) (k : Nat) (lbs kbs vbs rbs : List Nat) :
      WfVarint lbs → varintVal lbs = (kbs.length : Int) → utf8Valid kbs = true →
      Enc (.val ws) vbs → Enc (.pairs ws k) rbs →
      Enc (.pairs ws (k + 1)) (lbs ++ kbs ++ vbs ++ rbs)
  | mblocksNil (ws : AvroSchema) (zbs : List Nat) : WfVarint zbs → varintVal zbs = 0 →
      Enc (.mblocks ws) zbs
  | mblocksPos (ws : AvroSchema) (cbs pbs rbs : List Nat) (k : Nat) :
      WfVarint cbs → varintVal cbs = (k : Int) → 0 < k →
      Enc (.pairs ws k) pbs → Enc (.mblocks ws) rbs →
      Enc (.mblocks ws) (cbs ++ pbs ++ rbs)
  | mblocksNeg (ws : AvroSchema) (cbs sbs pbs rbs : List Nat) (k : Nat) :
      WfVarint cbs → varintVal cbs = -(k : Int) → 0 < k →
      WfVarint sbs → varintVal sbs = (pbs.length : Int) →
      Enc (.pairs ws k) pbs → Enc (.mblocks ws) rbs →
      Enc (.mblocks ws) (cbs ++ sbs ++ pbs ++ rbs)
  | fieldsNil : Enc (.fields []) []
  | fieldsCons (fname : String) (ftype : AvroSchema) (fs : List (String × AvroSchema))
      (bs1 bs2 : List Nat) : Enc (.val ftype) bs1 → Enc (.fields fs) bs2 →
      Enc (.fields ((fname, ftype) :: fs)) (bs1 ++ bs2)

/-!  Pointwise specifications of the primitive readers on well-placed
byte chunks. -/

theorem except_bind_ok {ε α β : Type} (a : α) (g : α → Except ε β) :
    ((Except.ok a : Except ε α) >>= g) = g a :=
  rfl

theorem drop_shift {α : Type} {data : List α} {pos : Nat} {bs rest : List α}
    (h : data.drop pos = bs ++ rest) : data.drop (pos + bs.length) = rest := by
  have h2 := congrArg (List.drop bs.length) h
  rw [List.drop_drop] at h2
  rw [h2, List.drop_left]

theorem read_spec {data : List Nat} {pos : Nat} {bs rest : List Nat}
    (hdrop : data.drop pos = bs ++ rest) :
    Reader.read ⟨data, pos⟩ bs.length = .ok (bs, ⟨data, pos + bs.length⟩) := by
  by_cases hn : bs.length = 0
  · have hbs : bs = [] := List.eq_nil_of_length_eq_zero hn
    subst hbs
    simp [Reader.read]
  · have hlen : (data.drop pos).length = bs.length + rest.length := by
      rw [hdrop]; simp
    have hlen2 : data.length - pos = bs.length + rest.length := by
      simpa using hlen
    have hpos : pos < data.length := by omega
    have hle : pos + bs.length ≤ data.length := by omega
    rw [Reader.read.eq_def]
    dsimp only
    rw [if_neg hn, if_neg (by omega), if_pos hle]
    have htake : (data.drop pos).take bs.length = bs := by
      rw [hdrop, List.take_left]
    rw [htake]

theorem skip_spec {data : List Nat} (pos : Nat) (n : Int) (hn : 0 ≤ n) :
    Reader.skip ⟨data, pos⟩ n = .ok ⟨data, pos + n.toNat⟩ := by
  rw [Reader.skip.eq_def]
  dsimp only
  rw [if_neg (by omega)]
  congr 2
  omega

theorem read_boolean_spec {data : List Nat} {pos : Nat} {b : Nat} {rest : List Nat}
    (hdrop : data.drop pos = b :: rest) (hb : b = 0 ∨ b = 1) :
    read_boolean ⟨data, pos⟩ = .ok (b = 1, ⟨data, pos + 1⟩) := by
  rw [read_boolean, readByte_spec hdrop, except_bind_ok]
  rcases hb with hb | hb <;> subst hb <;> simp

theorem read_bytes_spec {data : List Nat} {pos : Nat} {lbs body rest : List Nat}
    (hwf : WfVarint lbs) (hval : varintVal lbs = (body.length : Int))
    (hdrop : data.drop pos = lbs ++ body ++ rest) :
    read_bytes ⟨data, pos⟩ = .ok (body, ⟨data, pos + lbs.length + body.length⟩) := by
  have hdrop1 : data.drop pos = lbs ++ (body ++ rest) := by
    rw [hdrop, List.append_assoc]
  have hdrop2 : data.drop (pos + lbs.length) = body ++ rest := drop_shift hdrop1
  rw [read_bytes, read_long_spec hwf data pos (body ++ rest) hdrop1, except_bind_ok]
  rw [hval]
  dsimp only
  rw [if_neg (by omega)]
  have htoNat : ((body.length : Int)).toNat = body.length := by omega
  rw [htoNat, read_spec hdrop2]

theorem read_utf8_spec {data : List Nat} {pos : Nat} {lbs body rest : List Nat}
    (hwf : WfVarint lbs) (hval : varintVal lbs = (body.length : Int))
    (hutf : utf8Valid body = true)
    (hdrop : data.drop pos = lbs ++ body ++ rest) :
    read_utf8 ⟨data, pos⟩ = .ok (body, ⟨data, pos + lbs.length + body.length⟩) := by
  rw [read_utf8, read_bytes_spec hwf hval hdrop, except_bind_ok]
  dsimp only
  rw [if_pos hutf]

theorem skip_bytes_spec {data : List Nat} {pos : Nat} {lbs body rest : List Nat}
    (hwf : WfVarint lbs) (hval : varintVal lbs = (body.length : Int))
    (hdrop : data.drop pos = lbs ++ body ++ rest) :
    skip_bytes ⟨data, pos⟩ = .ok ⟨data, pos + lbs.length + body.length⟩ := by
  have hdrop1 : data.drop pos = lbs ++ (body ++ rest) := by
    rw [hdrop, List.append_assoc]
  rw [skip_bytes, read_long_spec hwf data pos (body ++ rest) hdrop1, except_bind_ok]
  rw [hval]
  dsimp only
  rw [skip_spec (pos + lbs.length) (body.length : Int) (by omega)]
  have htoNat : pos + lbs.length + ((body.length : Int)).toNat =
      pos + lbs.length + body.length := by omega
  rw [htoNat]

theorem skip_utf8_spec {data : List Nat} {pos : Nat} {lbs body rest : List Nat}
    (hwf : WfVarint lbs) (hval : varintVal lbs = (body.length : Int))
    (hdrop : data.drop pos = lbs ++ body ++ rest) :
    skip_utf8 ⟨data, pos⟩ = .ok ⟨data, pos + lbs.length + body.length⟩ :=
  skip_bytes_spec hwf hval hdrop

theorem pyGet_nonneg {α : Type} (xs : List α) (idx : Nat) (h : idx < xs.length) :
    pyGet xs (idx : Int) = .ok (xs.get ⟨idx, h⟩) := by
  rw [pyGet.eq_def]
  have hneg : ¬ ((idx : Int) < 0) := by omega
  simp only [hneg, if_false]
  have hcond : (0 : Int) ≤ (idx : Int) ∧ ((idx : Int)).toNat < xs.length := by
    constructor
    · omega
    · omega
  rw [dif_pos hcond]
  have htoNat : ((idx : Int)).toNat = idx := by omega
  simp only [htoNat]

/-- The property proved by induction over `Enc`: with enough fuel, reading
a well-formed chunk succeeds and lands exactly after it, and skipping the
same chunk succeeds and lands on the same position. -/
def EncP : EKind → List Nat → Prop
  | .val ws, bs => ∃ f0 : Nat, ∀ f, f0 ≤ f →
      ∀ (data : List Nat) (pos : Nat) (rest : List Nat), data.drop pos = bs ++ rest →
      (∃ v, read_data f ws ⟨data, pos⟩ = .ok (v, ⟨data, pos + bs.length⟩)) ∧
      skip_data f ws ⟨data, pos⟩ = .ok ⟨data, pos + bs.length⟩
  | .items ws k, bs => ∃ f0 : Nat, ∀ f, f0 ≤ f →
      ∀ (data : List Nat) (pos : Nat) (rest : List Nat), data.drop pos = bs ++ rest →
      (∀ acc, ∃ r, read_array_items f ws k ⟨data, pos⟩ acc = .ok (r, ⟨data, pos + bs.length⟩)) ∧
      skip_array_items f ws k ⟨data, pos⟩ = .ok ⟨data, pos + bs.length⟩
  | .blocks ws, bs => ∃ f0 : Nat, ∀ f, f0 ≤ f →
      ∀ (data : List Nat) (pos : Nat) (rest : List Nat), data.drop pos = bs ++ rest →
      (∀ acc, ∃ r, read_array_blocks f ws ⟨data, pos⟩ acc = .ok (r, ⟨data, pos + bs.length⟩)) ∧
      skip_array_blocks f ws ⟨data, pos⟩ = .ok ⟨data, pos + bs.length⟩
  | .pairs ws k, bs => ∃ f0 : Nat, ∀ f, f0 ≤ f →
      ∀ (data : List Nat) (pos : Nat) (rest : List Nat), data.drop pos = bs ++ rest →
      (∀ acc, ∃ r, read_map_pairs f ws k ⟨data, pos⟩ acc = .ok (r, ⟨data, pos + bs.length⟩)) ∧
      skip_map_pairs f ws k ⟨data, pos⟩ = .ok ⟨data, pos + bs.length⟩
  | .mblocks ws, bs => ∃ f0 : Nat, ∀ f, f0 ≤ f →
      ∀ (data : List Nat) (pos : Nat) (rest : List Nat), data.drop pos = bs ++ rest →
      (∀ acc, ∃ r, read_map_blocks f ws ⟨data, pos⟩ acc = .ok (r, ⟨data, pos + bs.length⟩)) ∧
      skip_map_blocks f ws ⟨data, pos⟩ = .ok ⟨data, pos + bs.length⟩
  | .fields fs, bs => ∃ f0 : Nat, ∀ f, f0 ≤ f →
      ∀ (data : List Nat) (pos : Nat) (rest : List Nat), data.drop pos = bs ++ rest →
      (∀ acc, ∃ r, read_record_fields f fs ⟨data, pos⟩ acc = .ok (r, ⟨data, pos + bs.length⟩)) ∧
      skip_record_fields f fs ⟨data, pos⟩ = .ok ⟨data, pos + bs.length⟩

theorem enc_read_skip {k : EKind} {bs : List Nat} (henc : Enc k bs) : EncP k bs := by
  induction henc with
  | null =>
    refine ⟨1, fun f hf data pos rest hdrop => ?_⟩
    obtain ⟨f2, rfl, -⟩ : ∃ g, f = g + 1 ∧ 0 ≤ g := ⟨f - 1, by omega, by omega⟩
    constructor
    · exact ⟨.null, by simp only [read_data, List.length_nil, Nat.add_zero]⟩
    · simp only [skip_data, List.length_nil, Nat.add_zero]
  | boolean b hb =>
    refine ⟨1, fun f hf data pos rest hdrop => ?_⟩
    obtain ⟨f2, rfl, -⟩ : ∃ g, f = g + 1 ∧ 0 ≤ g := ⟨f - 1, by omega, by omega⟩
    have hdrop1 : data.drop pos = b :: rest := hdrop
    constructor
    · refine ⟨.boolean (decide (b = 1)), ?_⟩
      simp only [read_data, List.length_cons, List.length_nil]
      rw [read_boolean_spec hdrop1 hb, except_bind_ok]
    · simp only [skip_data, List.length_cons, List.length_nil]
      rw [skip_spec pos 1 (by omega)]
      rfl
  | int bs hwf =>
    refine ⟨1, fun f hf data pos rest hdrop => ?_⟩
    obtain ⟨f2, rfl, -⟩ : ∃ g, f = g + 1 ∧ 0 ≤ g := ⟨f - 1, by omega, by omega⟩
    constructor
    · refine ⟨.int (varintVal bs), ?_⟩
      simp only [read_data, read_int]
      rw [read_long_spec hwf data pos rest hdrop, except_bind_ok]
    · simp only [skip_data, skip_int]
      exact skip_long_spec hwf data pos rest hdrop
  | long bs hwf =>
    refine ⟨1, fun f hf data pos rest hdrop => ?_⟩
    obtain ⟨f2, rfl, -⟩ : ∃ g, f = g + 1 ∧ 0 ≤ g := ⟨f - 1, by omega, by omega⟩
    constructor
    · refine ⟨.int (varintVal bs), ?_⟩
      simp only [read_data]
      rw [read_long_spec hwf data pos rest hdrop, except_bind_ok]
    · simp only [skip_data]
      exact skip_long_spec hwf data pos rest hdrop
  | float bs hlen =>
    refine ⟨1, fun f hf data pos rest hdrop => ?_⟩
    obtain ⟨f2, rfl, -⟩ : ∃ g, f = g + 1 ∧ 0 ≤ g := ⟨f - 1, by omega, by omega⟩
    constructor
    · refine ⟨.float bs, ?_⟩
      simp only [read_data]
      rw [show (4 : Nat) = bs.length from hlen.symm, read_spec hdrop, except_bind_ok]
    · simp only [skip_data]
      rw [show ((4 : Int)) = ((bs.length : Nat) : Int) by omega, skip_spec pos _ (by omega)]
      rfl
  | double bs hlen =>
    refine ⟨1, fun f hf data pos rest hdrop => ?_⟩
    obtain ⟨f2, rfl, -⟩ : ∃ g, f = g + 1 ∧ 0 ≤ g := ⟨f - 1, by omega, by omega⟩
    constructor
    · refine ⟨.double bs, ?_⟩
      simp only [read_data]
      rw [show (8 : Nat) = bs.length from hlen.symm, read_spec hdrop, except_bind_ok]
    · simp only [skip_data]
      rw [show ((8 : Int)) = ((bs.length : Nat) : Int) by omega, skip_spec pos _ (by omega)]
      rfl
  | bytes lbs body hwf hval =>
    refine ⟨1, fun f hf data pos rest hdrop => ?_⟩
    obtain ⟨f2, rfl, -⟩ : ∃ g, f = g + 1 ∧ 0 ≤ g := ⟨f - 1, by omega, by omega⟩
    have hdrop1 : data.drop pos = lbs ++ body ++ rest := hdrop
    have hp : pos + (lbs ++ body).length = pos + lbs.length + body.length := by
      simp only [List.length_append]; omega
    constructor
    · refine ⟨.bytes body, ?_⟩
      simp only [read_data]
      rw [read_bytes_spec hwf hval hdrop1, except_bind_ok, hp]
    · simp only [skip_data]
      rw [skip_bytes_spec hwf hval hdrop1, hp]
  | string lbs body hwf hval hutf =>
    refine ⟨1, fun f hf data pos rest hdrop => ?_⟩
    obtain ⟨f2, rfl, -⟩ : ∃ g, f = g + 1 ∧ 0 ≤ g := ⟨f - 1, by omega, by omega⟩
    have hdrop1 : data.drop pos = lbs ++ body ++ rest := hdrop
    have hp : pos + (lbs ++ body).length = pos + lbs.length + body.length := by
      simp only [List.length_append]; omega
    constructor
    · refine ⟨.string body, ?_⟩
      simp only [read_data]
      rw [read_utf8_spec hwf hval hutf hdrop1, except_bind_ok, hp]
    · simp only [skip_data]
      rw [skip_utf8_spec hwf hval hdrop1, hp]
  | fixed size body hlen =>
    refine ⟨1, fun f hf data pos rest hdrop => ?_⟩
    obtain ⟨f2, rfl, -⟩ : ∃ g, f = g + 1 ∧ 0 ≤ g := ⟨f - 1, by omega, by omega⟩
    constructor
    · refine ⟨.fixed body, ?_⟩
      simp only [read_data]
      rw [show size = body.length from hlen.symm, read_spec hdrop, except_bind_ok]
    · simp only [skip_data]
      rw [show ((size : Int)) = ((body.length : Nat) : Int) by omega, skip_spec pos _ (by omega)]
      rfl
  | enum symbols bs idx hwf hval hidx =>
    refine ⟨1, fun f hf data pos rest hdrop => ?_⟩
    obtain ⟨f2, rfl, -⟩ : ∃ g, f = g + 1 ∧ 0 ≤ g := ⟨f - 1, by omega, by omega⟩
    constructor
    · refine ⟨.enum (symbols.get ⟨idx, hidx⟩), ?_⟩
      simp only [read_data, read_enum, read_int]
      rw [read_long_spec hwf data pos rest hdrop, except_bind_ok]
      dsimp only
      rw [hval, if_neg (by exact_mod_cast not_le.mpr (by exact_mod_cast hidx))]
      rw [pyGet_nonneg symbols idx hidx, except_bind_ok]
      rfl
    · simp only [skip_data, skip_enum, skip_int]
      exact skip_long_spec hwf data pos rest hdrop
  | union schemas ibs body idx hidx hwf hval hbody ih =>
    obtain ⟨fb, hb⟩ := ih
    refine ⟨fb + 1, fun f hf data pos rest hdrop => ?_⟩
    obtain ⟨f2, rfl, hf2⟩ : ∃ g, f = g + 1 ∧ fb ≤ g := ⟨f - 1, by omega, by omega⟩
    have hdrop1 : data.drop pos = ibs ++ (body ++ rest) := by
      rw [hdrop]; simp [List.append_assoc]
    have hdrop2 : data.drop (pos + ibs.length) = body ++ rest := drop_shift hdrop1
    have hp : pos + (ibs ++ body).length = pos + ibs.length + body.length := by
      simp only [List.length_append]; omega
    have hcond : ¬ ((schemas.length : Int) ≤ varintVal ibs) := by
      rw [hval]; exact_mod_cast not_le.mpr (by exact_mod_cast hidx)
    obtain ⟨hbr, hbs⟩ := hb f2 hf2 data (pos + ibs.length) rest hdrop2
    constructor
    · obtain ⟨v, hv⟩ := hbr
      refine ⟨v, ?_⟩
      simp only [read_data]
      rw [read_long_spec hwf data pos (body ++ rest) hdrop1, except_bind_ok]
      dsimp only
      rw [if_neg hcond, hval, pyGet_nonneg schemas idx hidx, except_bind_ok, hp]
      exact hv
    · simp only [skip_data]
      rw [read_long_spec hwf data pos (body ++ rest) hdrop1, except_bind_ok]
      dsimp only
      rw [if_neg hcond, hval, pyGet_nonneg schemas idx hidx, except_bind_ok, hp]
      exact hbs
  | array ws bs hblocks ih =>
    obtain ⟨fb, hb⟩ := ih
    refine ⟨fb + 1, fun f hf data pos rest hdrop => ?_⟩
    obtain ⟨f2, rfl, hf2⟩ : ∃ g, f = g + 1 ∧ fb ≤ g := ⟨f - 1, by omega, by omega⟩
    obtain ⟨hbr, hbs⟩ := hb f2 hf2 data pos rest hdrop
    constructor
    · obtain ⟨r, hr⟩ := hbr []
      refine ⟨.array r, ?_⟩
      simp only [read_data]
      rw [hr, except_bind_ok]
    · simp only [skip_data]
      exact hbs
  | mapVal ws bs hblocks ih =>
    obtain ⟨fb, hb⟩ := ih
    refine ⟨fb + 1, fun f hf data pos rest hdrop => ?_⟩
    obtain ⟨f2, rfl, hf2⟩ : ∃ g, f = g + 1 ∧ fb ≤ g := ⟨f - 1, by omega, by omega⟩
    obtain ⟨hbr, hbs⟩ := hb f2 hf2 data pos rest hdrop
    constructor
    · obtain ⟨r, hr⟩ := hbr []
      refine ⟨.map r, ?_⟩
      simp only [read_data]
      rw [hr, except_bind_ok]
    · simp only [skip_data]
      exact hbs
  | record fs bs hfields ih =>
    obtain ⟨fb, hb⟩ := ih
    refine ⟨fb + 1, fun f hf data pos rest hdrop => ?_⟩
    obtain ⟨f2, rfl, hf2⟩ : ∃ g, f = g + 1 ∧ fb ≤ g := ⟨f - 1, by omega, by omega⟩
    obtain ⟨hbr, hbs⟩ := hb f2 hf2 data pos rest hdrop
    constructor
    · obtain ⟨r, hr⟩ := hbr []
      refine ⟨.record r, ?_⟩
      simp only [read_data]
      rw [hr, except_bind_ok]
    · simp only [skip_data]
      exact hbs
  | itemsNil ws =>
    refine ⟨1, fun f hf data pos rest hdrop => ?_⟩
    constructor
    · intro acc
      exact ⟨acc, by simp only [read_array_items, List.length_nil, Nat.add_zero]⟩
    · simp only [skip_array_items, List.length_nil, Nat.add_zero]
  | itemsCons ws k bs1 bs2 hval hitems ihv ihi =>
    obtain ⟨fv, hv⟩ := ihv
    obtain ⟨fi, hi⟩ := ihi
    refine ⟨max fv fi + 1, fun f hf data pos rest hdrop => ?_⟩
    obtain ⟨f2, rfl, hf2⟩ : ∃ g, f = g + 1 ∧ max fv fi ≤ g := ⟨f - 1, by omega, by omega⟩
    have hdrop1 : data.drop pos = bs1 ++ (bs2 ++ rest) := by
      rw [hdrop]; simp [List.append_assoc]
    have hdrop2 : data.drop (pos + bs1.length) = bs2 ++ rest := drop_shift hdrop1
    have hp : pos + (bs1 ++ bs2).length = pos + bs1.length + bs2.length := by
      simp only [List.length_append]; omega
    obtain ⟨hvr, hvs⟩ := hv f2 (by omega) data pos (bs2 ++ rest) hdrop1
    obtain ⟨hir, his⟩ := hi f2 (by omega) data (pos + bs1.length) rest hdrop2
    constructor
    · intro acc
      obtain ⟨v, hvv⟩ := hvr
      obtain ⟨r, hr⟩ := hir (acc ++ [v])
      refine ⟨r, ?_⟩
      simp only [read_array_items]
      rw [hvv, except_bind_ok]
      dsimp only
      rw [hr, hp]
    · simp only [skip_array_items]
      rw [hvs, except_bind_ok, his, hp]
  | blocksNil ws zbs hwf hval =>
    refine ⟨1, fun f hf data pos rest hdrop => ?_⟩
    obtain ⟨f2, rfl, -⟩ : ∃ g, f = g + 1 ∧ 0 ≤ g := ⟨f - 1, by omega, by omega⟩
    constructor
    · intro acc
      refine ⟨acc, ?_⟩
      simp only [read_array_blocks]
      rw [read_long_spec hwf data pos rest hdrop, except_bind_ok]
      dsimp only
      rw [hval, if_pos rfl]
    · simp only [skip_array_blocks]
      rw [read_long_spec hwf data pos rest hdrop, except_bind_ok]
      dsimp only
      rw [hval, if_pos rfl]
  | blocksPos ws cbs ibs rbs k hwf hval hk hitems hrest ihi ihr =>
    obtain ⟨fi, hi⟩ := ihi
    obtain ⟨fr, hr⟩ := ihr
    refine ⟨max fi fr + 1, fun f hf data pos rest hdrop => ?_⟩
    obtain ⟨f2, rfl, hf2⟩ : ∃ g, f = g + 1 ∧ max fi fr ≤ g := ⟨f - 1, by omega, by omega⟩
    have hdrop1 : data.drop pos = cbs ++ (ibs ++ (rbs ++ rest)) := by
      rw [hdrop]; simp [List.append_assoc]
    have hdrop2 : data.drop (pos + cbs.length) = ibs ++ (rbs ++ rest) := drop_shift hdrop1
    have hdrop3 : data.drop (pos + cbs.length + ibs.length) = rbs ++ rest := drop_shift hdrop2
    have hp : pos + (cbs ++ ibs ++ rbs).length =
        pos + cbs.length + ibs.length + rbs.length := by
      simp only [List.length_append]; omega
    have hne : ¬ ((k : Int) = 0) := by omega
    have hnlt : ¬ ((k : Int) < 0) := by omega
    have htn : ((k : Int)).toNat = k := by omega
    obtain ⟨hir, his⟩ := hi f2 (by omega) data (pos + cbs.length) (rbs ++ rest) hdrop2
    obtain ⟨hrr, hrs⟩ := hr f2 (by omega) data (pos + cbs.length + ibs.length) rest hdrop3
    constructor
    · intro acc
      obtain ⟨r1, hr1⟩ := hir acc
      obtain ⟨r2, hr2⟩ := hrr r1
      refine ⟨r2, ?_⟩
      simp only [read_array_blocks]
      rw [read_long_spec hwf data pos (ibs ++ (rbs ++ rest)) hdrop1, except_bind_ok]
      dsimp only
      rw [hval, if_neg hne, if_neg hnlt, htn, hr1, except_bind_ok]
      dsimp only
      rw [hr2, hp]
    · simp only [skip_array_blocks]
      rw [read_long_spec hwf data pos (ibs ++ (rbs ++ rest)) hdrop1, except_bind_ok]
      dsimp only
      rw [hval, if_neg hne, if_neg hnlt, htn, his, except_bind_ok, hrs, hp]
  | blocksNeg ws cbs sbs ibs rbs k hwf hval hk hwfs hvals hitems hrest ihi ihr =>
    obtain ⟨fi, hi⟩ := ihi
    obtain ⟨fr, hr⟩ := ihr
    refine ⟨max fi fr + 1, fun f hf data pos rest hdrop => ?_⟩
    obtain ⟨f2, rfl, hf2⟩ : ∃ g, f = g + 1 ∧ max fi fr ≤ g := ⟨f - 1, by omega, by omega⟩
    have hdrop1 : data.drop pos = cbs ++ (sbs ++ (ibs ++ (rbs ++ rest))) := by
      rw [hdrop]; simp [List.append_assoc]
    have hdrop2 : data.drop (pos + cbs.length) = sbs ++ (ibs ++ (rbs ++ rest)) :=
      drop_shift hdrop1
    have hdrop3 : data.drop (pos + cbs.length + sbs.length) = ibs ++ (rbs ++ rest) :=
      drop_shift hdrop2
    have hdrop4 : data.drop (pos + cbs.length + sbs.length + ibs.length) = rbs ++ rest :=
      drop_shift hdrop3
    have hp : pos + (cbs ++ sbs ++ ibs ++ rbs).length =
        pos + cbs.length + sbs.length + ibs.length + rbs.length := by
      simp only [List.length_append]; omega
    have hne : ¬ (-(k : Int) = 0) := by omega
    have hlt : (-(k : Int) < 0) := by omega
    have htn : (-(-(k : Int))).toNat = k := by omega
    obtain ⟨hir, his⟩ := hi f2 (by omega) data (pos + cbs.length + sbs.length)
      (rbs ++ rest) hdrop3
    obtain ⟨hrr, hrs⟩ := hr f2 (by omega) data (pos + cbs.length + sbs.length + ibs.length)
      rest hdrop4
    constructor
    · intro acc
      obtain ⟨r1, hr1⟩ := hir acc
      obtain ⟨r2, hr2⟩ := hrr r1
      refine ⟨r2, ?_⟩
      simp only [read_array_blocks]
      rw [read_long_spec hwf data pos (sbs ++ (ibs ++ (rbs ++ rest))) hdrop1, except_bind_ok]
      dsimp only
      rw [hval, if_neg hne, if_pos hlt]
      rw [read_long_spec hwfs data (pos + cbs.length) (ibs ++ (rbs ++ rest)) hdrop2,
        except_bind_ok]
      dsimp only
      rw [htn, hr1, except_bind_ok]
      dsimp only
      rw [hr2, hp]
    · simp only [skip_array_blocks]
      rw [read_long_spec hwf data pos (sbs ++ (ibs ++ (rbs ++ rest))) hdrop1, except_bind_ok]
      dsimp only
      rw [hval, if_neg hne, if_pos hlt]
      rw [read_long_spec hwfs data (pos + cbs.length) (ibs ++ (rbs ++ rest)) hdrop2,
        except_bind_ok]
      dsimp only
      rw [hvals, skip_spec (pos + cbs.length + sbs.length) ((ibs.length : Nat) : Int) (by omega),
        except_bind_ok]
      have htn2 : pos + cbs.length + sbs.length + (((ibs.length : Nat) : Int)).toNat =
          pos + cbs.length + sbs.length + ibs.length := by omega
      rw [htn2, hrs, hp]
  | pairsNil ws =>
    refine ⟨1, fun f hf data pos rest hdrop => ?_⟩
    constructor
    · intro acc
      exact ⟨acc, by simp only [read_map_pairs, List.length_nil, Nat.add_zero]⟩
    · simp only [skip_map_pairs, List.length_nil, Nat.add_zero]
  | pairsCons ws k lbs kbs vbs rbs hwfl hvall hutf hval hpairs ihv ihp =>
    obtain ⟨fv, hv⟩ := ihv
    obtain ⟨fp, hp0⟩ := ihp
    refine ⟨max fv fp + 1, fun f hf data pos rest hdrop => ?_⟩
    obtain ⟨f2, rfl, hf2⟩ : ∃ g, f = g + 1 ∧ max fv fp ≤ g := ⟨f - 1, by omega, by omega⟩
    have hdrop1 : data.drop pos = lbs ++ kbs ++ (vbs ++ (rbs ++ rest)) := by
      rw [hdrop]; simp [List.append_assoc]
    have hdrop1b : data.drop pos = lbs ++ (kbs ++ (vbs ++ (rbs ++ rest))) := by
      rw [hdrop]; simp [List.append_assoc]
    have hdrop2 : data.drop (pos + lbs.length) = kbs ++ (vbs ++ (rbs ++ rest)) :=
      drop_shift hdrop1b
    have hdrop3 : data.drop (pos + lbs.length + kbs.length) = vbs ++ (rbs ++ rest) :=
      drop_shift hdrop2
    have hdrop4 : data.drop (pos + lbs.length + kbs.length + vbs.length) = rbs ++ rest :=
      drop_shift hdrop3
    have hp : pos + (lbs ++ kbs ++ vbs ++ rbs).length =
        pos + lbs.length + kbs.length + vbs.length + rbs.length := by
      simp only [List.length_append]; omega
    obtain ⟨hvr, hvs⟩ := hv f2 (by omega) data (pos + lbs.length + kbs.length)
      (rbs ++ rest) hdrop3
    obtain ⟨hpr, hps⟩ := hp0 f2 (by omega) data (pos + lbs.length + kbs.length + vbs.length)
      rest hdrop4
    constructor
    · intro acc
      obtain ⟨v, hvv⟩ := hvr
      obtain ⟨r, hrr⟩ := hpr (dictInsert acc kbs v)
      refine ⟨r, ?_⟩
      simp only [read_map_pairs]
      rw [read_utf8_spec hwfl hvall hutf hdrop1, except_bind_ok]
      dsimp only
      rw [hvv, except_bind_ok]
      dsimp only
      rw [hrr, hp]
    · simp only [skip_map_pairs]
      rw [skip_utf8_spec hwfl hvall hdrop1, except_bind_ok, hvs, except_bind_ok, hps, hp]
  | mblocksNil ws zbs hwf hval =>
    refine ⟨1, fun f hf data pos rest hdrop => ?_⟩
    obtain ⟨f2, rfl, -⟩ : ∃ g, f = g + 1 ∧ 0 ≤ g := ⟨f - 1, by omega, by omega⟩
    constructor
    · intro acc
      refine ⟨acc, ?_⟩
      simp only [read_map_blocks]
      rw [read_long_spec hwf data pos rest hdrop, except_bind_ok]
      dsimp only
      rw [hval, if_pos rfl]
    · simp only [skip_map_blocks]
      rw [read_long_spec hwf data pos rest hdrop, except_bind_ok]
      dsimp only
      rw [hval, if_pos rfl]
  | mblocksPos ws cbs pbs rbs k hwf hval hk hpairs hrest ihp ihr =>
    obtain ⟨fi, hi⟩ := ihp
    obtain ⟨fr, hr⟩ := ihr
    refine ⟨max fi fr + 1, fun f hf data pos rest hdrop => ?_⟩
    obtain ⟨f2, rfl, hf2⟩ : ∃ g, f = g + 1 ∧ max fi fr ≤ g := ⟨f - 1, by omega, by omega⟩
    have hdrop1 : data.drop pos = cbs ++ (pbs ++ (rbs ++ rest)) := by
      rw [hdrop]; simp [List.append_assoc]
    have hdrop2 : data.drop (pos + cbs.length) = pbs ++ (rbs ++ rest) := drop_shift hdrop1
    have hdrop3 : data.drop (pos + cbs.length + pbs.length) = rbs ++ rest := drop_shift hdrop2
    have hp : pos + (cbs ++ pbs ++ rbs).length =
        pos + cbs.length + pbs.length + rbs.length := by
      simp only [List.length_append]; omega
    have hne : ¬ ((k : Int) = 0) := by omega
    have hnlt : ¬ ((k : Int) < 0) := by omega
    have htn : ((k : Int)).toNat = k := by omega
    obtain ⟨hir, his⟩ := hi f2 (by omega) data (pos + cbs.length) (rbs ++ rest) hdrop2
    obtain ⟨hrr, hrs⟩ := hr f2 (by omega) data (pos + cbs.length + pbs.length) rest hdrop3
    constructor
    · intro acc
      obtain ⟨r1, hr1⟩ := hir acc
      obtain ⟨r2, hr2⟩ := hrr r1
      refine ⟨r2, ?_⟩
      simp only [read_map_blocks]
      rw [read_long_spec hwf data pos (pbs ++ (rbs ++ rest)) hdrop1, except_bind_ok]
      dsimp only
      rw [hval, if_neg hne, if_neg hnlt, htn, hr1, except_bind_ok]
      dsimp only
      rw [hr2, hp]
    · simp only [skip_map_blocks]
      rw [read_long_spec hwf data pos (pbs ++ (rbs ++ rest)) hdrop1, except_bind_ok]
      dsimp only
      rw [hval, if_neg hne, if_neg hnlt, htn, his, except_bind_ok, hrs, hp]
  | mblocksNeg ws cbs sbs pbs rbs k hwf hval hk hwfs hvals hpairs hrest ihp ihr =>
    obtain ⟨fi, hi⟩ := ihp
    obtain ⟨fr, hr⟩ := ihr
    refine ⟨max fi fr + 1, fun f hf data pos rest hdrop => ?_⟩
    obtain ⟨f2, rfl, hf2⟩ : ∃ g, f = g + 1 ∧ max fi fr ≤ g := ⟨f - 1, by omega, by omega⟩
    have hdrop1 : data.drop pos = cbs ++ (sbs ++ (pbs ++ (rbs ++ rest))) := by
      rw [hdrop]; simp [List.append_assoc]
    have hdrop2 : data.drop (pos + cbs.length) = sbs ++ (pbs ++ (rbs ++ rest)) :=
      drop_shift hdrop1
    have hdrop3 : data.drop (pos + cbs.length + sbs.length) = pbs ++ (rbs ++ rest) :=
      drop_shift hdrop2
    have hdrop4 : data.drop (pos + cbs.length + sbs.length + pbs.length) = rbs ++ rest :=
      drop_shift hdrop3
    have hp : pos + (cbs ++ sbs ++ pbs ++ rbs).length =
        pos + cbs.length + sbs.length + pbs.length + rbs.length := by
      simp only [List.length_append]; omega
    have hne : ¬ (-(k : Int) = 0) := by omega
    have hlt : (-(k : Int) < 0) := by omega
    have htn : (-(-(k : Int))).toNat = k := by omega
    obtain ⟨hir, his⟩ := hi f2 (by omega) data (pos + cbs.length + sbs.length)
      (rbs ++ rest) hdrop3
    obtain ⟨hrr, hrs⟩ := hr f2 (by omega) data (pos + cbs.length + sbs.length + pbs.length)
      rest hdrop4
    constructor
    · intro acc
      obtain ⟨r1, hr1⟩ := hir acc
      obtain ⟨r2, hr2⟩ := hrr r1
      refine ⟨r2, ?_⟩
      simp only [read_map_blocks]
      rw [read_long_spec hwf data pos (sbs ++ (pbs ++ (rbs ++ rest))) hdrop1, except_bind_ok]
      dsimp only
      rw [hval, if_neg hne, if_pos hlt]
      rw [read_long_spec hwfs data (pos + cbs.length) (pbs ++ (rbs ++ rest)) hdrop2,
        except_bind_ok]
      dsimp only
      rw [htn, hr1, except_bind_ok]
      dsimp only
      rw [hr2, hp]
    · simp only [skip_map_blocks]
      rw [read_long_spec hwf data pos (sbs ++ (pbs ++ (rbs ++ rest))) hdrop1, except_bind_ok]
      dsimp only
      rw [hval, if_neg hne, if_pos hlt]
      rw [read_long_spec hwfs data (pos + cbs.length) (pbs ++ (rbs ++ rest)) hdrop2,
        except_bind_ok]
      dsimp only
      rw [hvals, skip_spec (pos + cbs.length + sbs.length) ((pbs.length : Nat) : Int) (by omega),
        except_bind_ok]
      have htn2 : pos + cbs.length + sbs.length + (((pbs.length : Nat) : Int)).toNat =
          pos + cbs.length + sbs.length + pbs.length := by omega
      rw [htn2, hrs, hp]
  | fieldsNil =>
    refine ⟨1, fun f hf data pos rest hdrop => ?_⟩
    constructor
    · intro acc
      exact ⟨acc, by simp only [read_record_fields, List.length_nil, Nat.add_zero]⟩
    · simp only [skip_record_fields, List.length_nil, Nat.add_zero]
  | fieldsCons fname ftype fs bs1 bs2 hval hfields ihv ihf =>
    obtain ⟨fv, hv⟩ := ihv
    obtain ⟨fi, hi⟩ := ihf
    refine ⟨max fv fi + 1, fun f hf data pos rest hdrop => ?_⟩
    obtain ⟨f2, rfl, hf2⟩ : ∃ g, f = g + 1 ∧ max fv fi ≤ g := ⟨f - 1, by omega, by omega⟩
    have hdrop1 : data.drop pos = bs1 ++ (bs2 ++ rest) := by
      rw [hdrop]; simp [List.append_assoc]
    have hdrop2 : data.drop (pos + bs1.length) = bs2 ++ rest := drop_shift hdrop1
    have hp : pos + (bs1 ++ bs2).length = pos + bs1.length + bs2.length := by
      simp only [List.length_append]; omega
    obtain ⟨hvr, hvs⟩ := hv f2 (by omega) data pos (bs2 ++ rest) hdrop1
    obtain ⟨hir, his⟩ := hi f2 (by omega) data (pos + bs1.length) rest hdrop2
    constructor
    · intro acc
      obtain ⟨v, hvv⟩ := hvr
      obtain ⟨r, hrr⟩ := hir (acc ++ [(fname, v)])
      refine ⟨r, ?_⟩
      simp only [read_record_fields]
      rw [hvv, except_bind_ok]
      dsimp only
      rw [hrr, hp]
    · simp only [skip_record_fields]
      rw [hvs, except_bind_ok, his, hp]

/-- C3: for every writer schema and every byte stream whose next bytes
hold a well-formed encoding of a value of that schema, `skip_data` leaves
the decoder position identical to the position reached by `read_data`
from the same starting point (both land exactly after the encoded value;
the read result is discarded). -/
theorem c3_skip_read_equivalent (ws : AvroSchema) (bs : List Nat)
    (henc : Enc (.val ws) bs) (data : List Nat) (pos : Nat) (rest : List Nat)
    (hdrop : data.drop pos = bs ++ rest) :
    ∃ f0 : Nat, ∀ f, f0 ≤ f →
      ∃ v, read_data f ws ⟨data, pos⟩ = .ok (v, ⟨data, pos + bs.length⟩) ∧
        skip_data f ws ⟨data, pos⟩ = .ok ⟨data, pos + bs.length⟩ := by
  obtain ⟨f0, h⟩ := enc_read_skip henc
  refine ⟨f0, fun f hf => ?_⟩
  obtain ⟨⟨v, hr⟩, hs⟩ := h f hf data pos rest hdrop
  exact ⟨v, hr, hs⟩

/-- C3 witness: for the union schema `[null, string]` and the stream
`0x02 0x08 "t" "e" "s" "t"` followed by a trailing byte, reading and
skipping both land exactly after the encoded value, at position 6. -/
theorem c3_skip_read_equivalent_witness :
    ∃ (f : Nat) (v : AvroValue),
      read_data f (.union [.null, .string]) ⟨[0x02, 0x08, 0x74, 0x65, 0x73, 0x74, 0x00], 0⟩ =
        .ok (v, ⟨[0x02, 0x08, 0x74, 0x65, 0x73, 0x74, 0x00], 0 + 6⟩) ∧
      skip_data f (.union [.null, .string]) ⟨[0x02, 0x08, 0x74, 0x65, 0x73, 0x74, 0x00], 0⟩ =
        .ok ⟨[0x02, 0x08, 0x74, 0x65, 0x73, 0x74, 0x00], 0 + 6⟩ := by
  have henc : Enc (.val (.union [AvroSchema.null, AvroSchema.string]))
      [0x02, 0x08, 0x74, 0x65, 0x73, 0x74] := by
    have hstr : Enc (.val AvroSchema.string) [0x08, 0x74, 0x65, 0x73, 0x74] :=
      Enc.string [0x08] [0x74, 0x65, 0x73, 0x74] (WfVarint.last 0x08 (by decide))
        (by decide) (by decide)
    exact Enc.union [AvroSchema.null, AvroSchema.string] [0x02]
      [0x08, 0x74, 0x65, 0x73, 0x74] 1 (by decide)
      (WfVarint.last 0x02 (by decide)) (by decide) hstr
  obtain ⟨f0, h⟩ := c3_skip_read_equivalent (.union [.null, .string])
    [0x02, 0x08, 0x74, 0x65, 0x73, 0x74] henc
    [0x02, 0x08, 0x74, 0x65, 0x73, 0x74, 0x00] 0 [0x00] (by decide)
  obtain ⟨v, hr, hs⟩ := h f0 (Nat.le_refl f0)
  exact ⟨f0, v, hr, hs⟩

theorem pyGet_ofNonneg {α : Type} (xs : List α) (i : Int) (h0 : 0 ≤ i)
    (h : i < (xs.length : Int)) :
    ∃ hh : i.toNat < xs.length, pyGet xs i = .ok (xs.get ⟨i.toNat, hh⟩) := by
  have hh : i.toNat < xs.length := by omega
  have hi : ((i.toNat : Nat) : Int) = i := by omega
  refine ⟨hh, ?_⟩
  have heq : pyGet xs i = pyGet xs ((i.toNat : Nat) : Int) := by rw [hi]
  rw [heq, pyGet_nonneg xs i.toNat hh]

theorem pyGet_neg {α : Type} (xs : List α) (i : Int) (hlo : -(xs.length : Int) ≤ i)
    (hi : i < 0) :
    ∃ h : ((xs.length : Int) + i).toNat < xs.length,
      pyGet xs i = .ok (xs.get ⟨((xs.length : Int) + i).toNat, h⟩) := by
  have hh : ((xs.length : Int) + i).toNat < xs.length := by omega
  refine ⟨hh, ?_⟩
  have hj : (if i < 0 then (xs.length : Int) + i else i) = (xs.length : Int) + i :=
    if_pos hi
  rw [pyGet.eq_def]
  dsimp only
  simp only [hj]
  have hcond : (0 : Int) ≤ (xs.length : Int) + i ∧
      ((xs.length : Int) + i).toNat < xs.length := ⟨by omega, hh⟩
  rw [dif_pos hcond]

/-- C2: in `read_array`/`read_map`, a negative block count `c` is followed
by one further long (the block byte size, read and discarded) and then
exactly `abs c` items (key/value pairs for maps) decoded with the
item/value schema, after which the loop continues; in
`skip_array`/`skip_map`, a negative block count is followed by the
byte-size long and the stream position then advances by exactly that many
bytes without decoding items (the skipped bytes are entirely
unconstrained); in both read and skip a block count of 0 terminates the
sequence, consuming only the count. -/
theorem c2_negative_blocks_and_zero_terminator :
    (∀ (ws : AvroSchema) (f : Nat) (data : List Nat) (pos : Nat)
       (cbs sbs tail : List Nat) (c : Int) (acc r : List AvroValue) (s2 : Reader),
       WfVarint cbs → varintVal cbs = c → c < 0 → WfVarint sbs →
       data.drop pos = cbs ++ (sbs ++ tail) →
       read_array_items f ws (-c).toNat ⟨data, pos + cbs.length + sbs.length⟩ acc =
         .ok (r, s2) →
       read_array_blocks (f + 1) ws ⟨data, pos⟩ acc = read_array_blocks f ws s2 r) ∧
    (∀ (ws : AvroSchema) (f : Nat) (data : List Nat) (pos : Nat)
       (cbs sbs : List Nat) (c : Int) (sz : Nat) (tail : List Nat),
       WfVarint cbs → varintVal cbs = c → c < 0 → WfVarint sbs →
       varintVal sbs = (sz : Int) →
       data.drop pos = cbs ++ (sbs ++ tail) →
       skip_array_blocks (f + 1) ws ⟨data, pos⟩ =
         skip_array_blocks f ws ⟨data, pos + cbs.length + sbs.length + sz⟩) ∧
    (∀ (ws : AvroSchema) (f : Nat) (data : List Nat) (pos : Nat)
       (cbs sbs tail : List Nat) (c : Int) (acc r : List (List Nat × AvroValue)) (s2 : Reader),
       WfVarint cbs → varintVal cbs = c → c < 0 → WfVarint sbs →
       data.drop pos = cbs ++ (sbs ++ tail) →
       read_map_pairs f ws (-c).toNat ⟨data, pos + cbs.length + sbs.length⟩ acc =
         .ok (r, s2) →
       read_map_blocks (f + 1) ws ⟨data, pos⟩ acc = read_map_blocks f ws s2 r) ∧
    (∀ (ws : AvroSchema) (f : Nat) (data : List Nat) (pos : Nat)
       (cbs sbs : List Nat) (c : Int) (sz : Nat) (tail : List Nat),
       WfVarint cbs → varintVal cbs = c → c < 0 → WfVarint sbs →
       varintVal sbs = (sz : Int) →
       data.drop pos = cbs ++ (sbs ++ tail) →
       skip_map_blocks (f + 1) ws ⟨data, pos⟩ =
         skip_map_blocks f ws ⟨data, pos + cbs.length + sbs.length + sz⟩) ∧
    (∀ (ws : AvroSchema) (f : Nat) (data : List Nat) (pos : Nat)
       (zbs tail : List Nat) (acc : List AvroValue) (macc : List (List Nat × AvroValue)),
       WfVarint zbs → varintVal zbs = 0 →
       data.drop pos = zbs ++ tail →
       read_array_blocks (f + 1) ws ⟨data, pos⟩ acc = .ok (acc, ⟨data, pos + zbs.length⟩) ∧
       skip_array_blocks (f + 1) ws ⟨data, pos⟩ = .ok ⟨data, pos + zbs.length⟩ ∧
       read_map_blocks (f + 1) ws ⟨data, pos⟩ macc = .ok (macc, ⟨data, pos + zbs.length⟩) ∧
       skip_map_blocks (f + 1) ws ⟨data, pos⟩ = .ok ⟨data, pos + zbs.length⟩) := by
  refine ⟨?_, ?_, ?_, ?_, ?_⟩
  · intro ws f data pos cbs sbs tail c acc r s2 hwfc hc hneg hwfs hdrop hitems
    have hdrop2 : data.drop (pos + cbs.length) = sbs ++ tail := drop_shift hdrop
    simp only [read_array_blocks]
    rw [read_long_spec hwfc data pos (sbs ++ tail) hdrop, except_bind_ok]
    dsimp only
    rw [hc, if_neg (by omega), if_pos hneg]
    rw [read_long_spec hwfs data (pos + cbs.length) tail hdrop2, except_bind_ok]
    dsimp only
    rw [hitems, except_bind_ok]
  · intro ws f data pos cbs sbs c sz tail hwfc hc hneg hwfs hsz hdrop
    have hdrop2 : data.drop (pos + cbs.length) = sbs ++ tail := drop_shift hdrop
    simp only [skip_array_blocks]
    rw [read_long_spec hwfc data pos (sbs ++ tail) hdrop, except_bind_ok]
    dsimp only
    rw [hc, if_neg (by omega), if_pos hneg]
    rw [read_long_spec hwfs data (pos + cbs.length) tail hdrop2, except_bind_ok]
    dsimp only
    rw [hsz, skip_spec (pos + cbs.length + sbs.length) ((sz : Nat) : Int) (by omega),
      except_bind_ok]
    have htn : pos + cbs.length + sbs.length + (((sz : Nat) : Int)).toNat =
        pos + cbs.length + sbs.length + sz := by omega
    rw [htn]
  · intro ws f data pos cbs sbs tail c acc r s2 hwfc hc hneg hwfs hdrop hpairs
    have hdrop2 : data.drop (pos + cbs.length) = sbs ++ tail := drop_shift hdrop
    simp only [read_map_blocks]
    rw [read_long_spec hwfc data pos (sbs ++ tail) hdrop, except_bind_ok]
    dsimp only
    rw [hc, if_neg (by omega), if_pos hneg]
    rw [read_long_spec hwfs data (pos + cbs.length) tail hdrop2, except_bind_ok]
    dsimp only
    rw [hpairs, except_bind_ok]
  · intro ws f data pos cbs sbs c sz tail hwfc hc hneg hwfs hsz hdrop
    have hdrop2 : data.drop (pos + cbs.length) = sbs ++ tail := drop_shift hdrop
    simp only [skip_map_blocks]
    rw [read_long_spec hwfc data pos (sbs ++ tail) hdrop, except_bind_ok]
    dsimp only
    rw [hc, if_neg (by omega), if_pos hneg]
    rw [read_long_spec hwfs data (pos + cbs.length) tail hdrop2, except_bind_ok]
    dsimp only
    rw [hsz, skip_spec (pos + cbs.length + sbs.length) ((sz : Nat) : Int) (by omega),
      except_bind_ok]
    have htn : pos + cbs.length + sbs.length + (((sz : Nat) : Int)).toNat =
        pos + cbs.length + sbs.length + sz := by omega
    rw [htn]
  · intro ws f data pos zbs tail acc macc hwf hz hdrop
    refine ⟨?_, ?_, ?_, ?_⟩
    · simp only [read_array_blocks]
      rw [read_long_spec hwf data pos tail hdrop, except_bind_ok]
      dsimp only
      rw [hz, if_pos rfl]
    · simp only [skip_array_blocks]
      rw [read_long_spec hwf data pos tail hdrop, except_bind_ok]
      dsimp only
      rw [hz, if_pos rfl]
    · simp only [read_map_blocks]
      rw [read_long_spec hwf data pos tail hdrop, except_bind_ok]
      dsimp only
      rw [hz, if_pos rfl]
    · simp only [skip_map_blocks]
      rw [read_long_spec hwf data pos tail hdrop, except_bind_ok]
      dsimp only
      rw [hz, if_pos rfl]

/-- C2 witness: concrete instances of all five conjuncts.  Array/map
streams with block count -1 (varint `0x01`), byte size 1 or 3 (varints
`0x02`/`0x06`), one item/pair, and a `0x00` terminator. -/
theorem c2_negative_blocks_and_zero_terminator_witness :
    (read_array_blocks 3 .long ⟨[0x01, 0x02, 0x02, 0x00], 0⟩ [] =
      read_array_blocks 2 .long ⟨[0x01, 0x02, 0x02, 0x00], 3⟩ [.int 1]) ∧
    (skip_array_blocks 2 .long ⟨[0x01, 0x02, 0x02, 0x00], 0⟩ =
      skip_array_blocks 1 .long ⟨[0x01, 0x02, 0x02, 0x00], 0 + 1 + 1 + 1⟩) ∧
    (read_map_blocks 3 .long ⟨[0x01, 0x06, 0x02, 0x41, 0x02, 0x00], 0⟩ [] =
      read_map_blocks 2 .long ⟨[0x01, 0x06, 0x02, 0x41, 0x02, 0x00], 5⟩
        [([0x41], .int 1)]) ∧
    (skip_map_blocks 2 .long ⟨[0x01, 0x06, 0x02, 0x41, 0x02, 0x00], 0⟩ =
      skip_map_blocks 1 .long ⟨[0x01, 0x06, 0x02, 0x41, 0x02, 0x00], 0 + 1 + 1 + 3⟩) ∧
    (read_array_blocks 1 .long ⟨[0x00, 0x07], 0⟩ [] = .ok ([], ⟨[0x00, 0x07], 0 + 1⟩) ∧
     skip_array_blocks 1 .long ⟨[0x00, 0x07], 0⟩ = .ok ⟨[0x00, 0x07], 0 + 1⟩ ∧
     read_map_blocks 1 .long ⟨[0x00, 0x07], 0⟩ [] = .ok ([], ⟨[0x00, 0x07], 0 + 1⟩) ∧
     skip_map_blocks 1 .long ⟨[0x00, 0x07], 0⟩ = .ok ⟨[0x00, 0x07], 0 + 1⟩) := by
  obtain ⟨h1, h2, h3, h4, h5⟩ := c2_negative_blocks_and_zero_terminator
  refine ⟨?_, ?_, ?_, ?_, ?_⟩
  · exact h1 .long 2 [0x01, 0x02, 0x02, 0x00] 0 [0x01] [0x02] [0x02, 0x00] (-1) [] [.int 1]
      ⟨[0x01, 0x02, 0x02, 0x00], 3⟩ (WfVarint.last 0x01 (by decide)) (by decide) (by decide)
      (WfVarint.last 0x02 (by decide)) (by decide) (by rfl)
  · exact h2 .long 1 [0x01, 0x02, 0x02, 0x00] 0 [0x01] [0x02] (-1) 1 [0x02, 0x00]
      (WfVarint.last 0x01 (by decide)) (by decide) (by decide)
      (WfVarint.last 0x02 (by decide)) (by decide) (by decide)
  · exact h3 .long 2 [0x01, 0x06, 0x02, 0x41, 0x02, 0x00] 0 [0x01] [0x06]
      [0x02, 0x41, 0x02, 0x00] (-1) [] [([0x41], .int 1)]
      ⟨[0x01, 0x06, 0x02, 0x41, 0x02, 0x00], 5⟩ (WfVarint.last 0x01 (by decide)) (by decide)
      (by decide) (WfVarint.last 0x06 (by decide)) (by decide) (by rfl)
  · exact h4 .long 1 [0x01, 0x06, 0x02, 0x41, 0x02, 0x00] 0 [0x01] [0x06] (-1) 3
      [0x02, 0x41, 0x02, 0x00] (WfVarint.last 0x01 (by decide)) (by decide) (by decide)
      (WfVarint.last 0x06 (by decide)) (by decide) (by decide)
  · exact h5 .long 0 [0x00, 0x07] 0 [0x00] [0x07] [] []
      (WfVarint.last 0x00 (by decide)) (by decide) (by decide)

/-- C4: `read_enum` decodes a zero-based index with `read_int` and fails
with `SchemaResolutionException` whenever the index is at least the
number of symbols; an in-range index `0 <= i < n` returns the symbol at
position `i`.  `read_union` decodes a zero-based index with `read_long`
and fails with `SchemaResolutionException` whenever the index is at least
the number of branches; an in-range index decodes the value using the
branch schema at that position. -/
theorem c4_enum_union_range_check :
    (∀ (symbols : List String) (s s1 : Reader) (i : Int),
       read_int s = .ok (i, s1) →
       ((symbols.length : Int) ≤ i → read_enum symbols s = .error .schemaRes) ∧
       (0 ≤ i → i < (symbols.length : Int) → ∃ h : i.toNat < symbols.length,
          read_enum symbols s = .ok (symbols.get ⟨i.toNat, h⟩, s1))) ∧
    (∀ (schemas : List AvroSchema) (f : Nat) (s s1 : Reader) (i : Int),
       read_long s = .ok (i, s1) →
       ((schemas.length : Int) ≤ i →
          read_data (f + 1) (.union schemas) s = .error .schemaRes) ∧
       (0 ≤ i → i < (schemas.length : Int) → ∃ h : i.toNat < schemas.length,
          read_data (f + 1) (.union schemas) s =
            read_data f (schemas.get ⟨i.toNat, h⟩) s1)) := by
  constructor
  · intro symbols s s1 i hread
    constructor
    · intro hge
      rw [read_enum, hread, except_bind_ok]
      dsimp only
      rw [if_pos hge]
    · intro h0 hlt
      obtain ⟨hh, hget⟩ := pyGet_ofNonneg symbols i h0 hlt
      refine ⟨hh, ?_⟩
      rw [read_enum, hread, except_bind_ok]
      dsimp only
      rw [if_neg (by omega), hget, except_bind_ok]
  · intro schemas f s s1 i hread
    constructor
    · intro hge
      simp only [read_data]
      rw [hread, except_bind_ok]
      dsimp only
      rw [if_pos hge]
    · intro h0 hlt
      obtain ⟨hh, hget⟩ := pyGet_ofNonneg schemas i h0 hlt
      refine ⟨hh, ?_⟩
      simp only [read_data]
      rw [hread, except_bind_ok]
      dsimp only
      rw [if_neg (by omega), hget, except_bind_ok]

/-- C4 witness: for the two-symbol enum, decoded index 2 (varint `0x04`)
raises `SchemaResolutionException` and decoded index 1 (varint `0x02`)
returns the second symbol; the same indices drive `read_union` over a
two-branch union. -/
theorem c4_enum_union_range_check_witness :
    read_enum ["A", "B"] ⟨[0x04], 0⟩ = .error .schemaRes ∧
    read_enum ["A", "B"] ⟨[0x02], 0⟩ = .ok ("B", ⟨[0x02], 1⟩) ∧
    read_data 1 (.union [.null, .long]) ⟨[0x04], 0⟩ = .error .schemaRes ∧
    read_data 1 (.union [.null, .long]) ⟨[0x02, 0x06], 0⟩ =
      read_data 0 .long ⟨[0x02, 0x06], 1⟩ := by
  obtain ⟨henum, hunion⟩ := c4_enum_union_range_check
  refine ⟨?_, ?_, ?_, ?_⟩
  · exact (henum ["A", "B"] ⟨[0x04], 0⟩ ⟨[0x04], 1⟩ 2 (by decide)).1 (by decide)
  · obtain ⟨hh, hres⟩ := (henum ["A", "B"] ⟨[0x02], 0⟩ ⟨[0x02], 1⟩ 1 (by decide)).2
      (by decide) (by decide)
    exact hres
  · exact (hunion [.null, .long] 0 ⟨[0x04], 0⟩ ⟨[0x04], 1⟩ 2 (by decide)).1 (by decide)
  · obtain ⟨hh, hres⟩ := (hunion [.null, .long] 0 ⟨[0x02, 0x06], 0⟩ ⟨[0x02, 0x06], 1⟩ 1
      (by decide)).2 (by decide) (by decide)
    exact hres

/-- C10: `read_enum` and `read_union`/`skip_union` reject only indices
greater than or equal to the number of symbols/branches: a decoded index
`i` with `-n <= i < 0` does not raise `SchemaResolutionException`;
`read_enum` returns the symbol at position `n + i` (Python negative
indexing) and `read_union`/`skip_union` decode/skip using the branch
schema at position `n + i`. -/
theorem c10_negative_index_wraps :
    (∀ (symbols : List String) (s s1 : Reader) (i : Int),
       read_int s = .ok (i, s1) → -(symbols.length : Int) ≤ i → i < 0 →
       ∃ h : ((symbols.length : Int) + i).toNat < symbols.length,
         read_enum symbols s =
           .ok (symbols.get ⟨((symbols.length : Int) + i).toNat, h⟩, s1)) ∧
    (∀ (schemas : List AvroSchema) (f : Nat) (s s1 : Reader) (i : Int),
       read_long s = .ok (i, s1) → -(schemas.length : Int) ≤ i → i < 0 →
       ∃ h : ((schemas.length : Int) + i).toNat < schemas.length,
         read_data (f + 1) (.union schemas) s =
           read_data f (schemas.get ⟨((schemas.length : Int) + i).toNat, h⟩) s1 ∧
         skip_data (f + 1) (.union schemas) s =
           skip_data f (schemas.get ⟨((schemas.length : Int) + i).toNat, h⟩) s1) := by
  constructor
  · intro symbols s s1 i hread hlo hhi
    obtain ⟨hh, hget⟩ := pyGet_neg symbols i hlo hhi
    refine ⟨hh, ?_⟩
    rw [read_enum, hread, except_bind_ok]
    dsimp only
    rw [if_neg (by omega), hget, except_bind_ok]
  · intro schemas f s s1 i hread hlo hhi
    obtain ⟨hh, hget⟩ := pyGet_neg schemas i hlo hhi
    refine ⟨hh, ?_⟩
    constructor
    · simp only [read_data]
      rw [hread, except_bind_ok]
      dsimp only
      rw [if_neg (by omega), hget, except_bind_ok]
    · simp only [skip_data]
      rw [hread, except_bind_ok]
      dsimp only
      rw [if_neg (by omega), hget, except_bind_ok]

/-- C10 witness: a decoded index of -1 (varint `0x01`) selects the last
symbol of a two-symbol enum and the last branch of a two-branch union,
with no `SchemaResolutionException`. -/
theorem c10_negative_index_wraps_witness :
    read_enum ["A", "B"] ⟨[0x01], 0⟩ = .ok ("B", ⟨[0x01], 1⟩) ∧
    read_data 1 (.union [.null, .long]) ⟨[0x01, 0x06], 0⟩ =
      read_data 0 .long ⟨[0x01, 0x06], 1⟩ ∧
    skip_data 1 (.union [.null, .long]) ⟨[0x01, 0x06], 0⟩ =
      skip_data 0 .long ⟨[0x01, 0x06], 1⟩ := by
  obtain ⟨henum, hunion⟩ := c10_negative_index_wraps
  refine ⟨?_, ?_, ?_⟩
  · obtain ⟨hh, hres⟩ := henum ["A", "B"] ⟨[0x01], 0⟩ ⟨[0x01], 1⟩ (-1) (by decide)
      (by decide) (by decide)
    exact hres
  · obtain ⟨hh, hres⟩ := hunion [.null, .long] 0 ⟨[0x01, 0x06], 0⟩ ⟨[0x01, 0x06], 1⟩ (-1)
      (by decide) (by decide) (by decide)
    exact hres.1
  · obtain ⟨hh, hres⟩ := hunion [.null, .long] 0 ⟨[0x01, 0x06], 0⟩ ⟨[0x01, 0x06], 1⟩ (-1)
      (by decide) (by decide) (by decide)
    exact hres.2

end Avro

namespace Tracing

/-!
Shallow embedding of `DistributedTracingPolicy`
(`sdk/core/azure-core/azure/core/pipeline/policies/_distributed_tracing.py`).

 - A span is its attribute dictionary (kept as an association list in
   insertion order, updated in place on key collision, like a Python
   dict), an `endCount` incremented by `span.end()` / `span.finish()` /
   `span.__exit__(...)`, and the plugin/native flag the source probes
   with `hasattr(span, "set_http_attributes")`.
 - The request context models the reserved keys the policy uses:
   `TRACING_CONTEXT` (absent, or present holding a possibly-`None` span),
   `SUPPRESSION_TOKEN`, and `retry_count` (0 for absent, matching the
   `if request.context.get("retry_count")` truthiness check).
 - `urllib.parse.urlparse` is an external library call; the URL is
   modelled pre-parsed (`full`, `hostname`, `port`).
 - `sys.exc_info()` is passed explicitly; `(None, None, None)` is
   `excType = none`.
-/

/-- Span attribute values: strings or integers. -/
inductive AttrVal where
  | str (v : String)
  | num (v : Nat)
deriving DecidableEq, Repr

/-- `span.set_attribute` / dict item assignment: update an existing key
in place, append a new one. -/
def setAttr (m : List (String × AttrVal)) (k : String) (v : AttrVal) :
    List (String × AttrVal) :=
  if m.any (fun p => p.1 == k) then m.map (fun p => if p.1 == k then (k, v) else p)
  else m ++ [(k, v)]

/-- `span.set_attributes(attributes)` / `{**a, **b}`: set each pair in
order. -/
def setAttrs (m : List (String × AttrVal)) (new : List (String × AttrVal)) :
    List (String × AttrVal) :=
  new.foldl (fun acc p => setAttr acc p.1 p.2) m

/-- A tracing span as the policy manipulates it. -/
structure SpanM where
  attrs : List (String × AttrVal)
  endCount : Nat
  isPlugin : Bool
deriving DecidableEq, Repr

/-- The result of `urllib.parse.urlparse(request.url)`, modelled
pre-parsed. -/
structure UrlM where
  full : String
  hostname : Option String
  port : Option Nat
deriving DecidableEq, Repr

structure HttpRequestM where
  method : String
  url : UrlM
  headers : List (String × String)
deriving DecidableEq, Repr

structure HttpResponseM where
  statusCode : Nat
  headers : List (String × String)
deriving DecidableEq, Repr

/-- `headers.get(name)`. -/
def hget (headers : List (String × String)) (k : String) : Option String :=
  headers.lookup k

/-- Python truthiness of `headers.get(name)`: `None` and `""` are
falsy. -/
def truthy : Option String → Bool
  | none => false
  | some v => v ≠ ""

/-- `sys.exc_info()`: `excType = none` models `(None, None, None)`;
otherwise the exception type's `(__module__, __qualname__)`. -/
structure ExcInfoM where
  excType : Option (String × String)
deriving DecidableEq, Repr

/-- The reserved request-context keys used by the policy. -/
structure ReqContextM where
  tracingContext : Option (Option SpanM)
  suppressionToken : Bool
  retryCount : Nat
deriving DecidableEq, Repr

/-- The `error.type` string for an exception:
`module = type.__module__ if type.__module__ != "builtins" else ""`,
then `f"{module}.{qualname}" if module else qualname`. -/
def errorTypeOf (modName qual : String) : String :=
  let m := if modName ≠ "builtins" then modName else ""
  if m ≠ "" then m ++ "." ++ qual else qual

/-- `{http.request.method, url.full}`, always set. -/
def methodUrlChunk (rq : HttpRequestM) : List (String × AttrVal) :=
  [("http.request.method", .str rq.method), ("url.full", .str rq.url.full)]

/-- `if parsed_url.hostname: attributes[server.address] = ...`. -/
def serverAddressChunk (u : UrlM) : List (String × AttrVal) :=
  match u.hostname with
  | some h => [("server.address", .str h)]
  | none => []

/-- `if parsed_url.port: attributes[server.port] = ...` (0 is falsy). -/
def serverPortChunk (u : UrlM) : List (String × AttrVal) :=
  match u.port with
  | some p => if p ≠ 0 then [("server.port", .num p)] else []
  | none => []

/-- `user_agent = request.headers.get("User-Agent"); if user_agent:`. -/
def userAgentChunk (rq : HttpRequestM) : List (String × AttrVal) :=
  match hget rq.headers "User-Agent" with
  | some ua => if ua ≠ "" then [("user_agent.original", .str ua)] else []
  | none => []

/-- `if response and response.status_code:` record the status code, and
`error.type = str(status_code)` when the status is at least 400. -/
def statusChunk (resp : Option HttpResponseM) : List (String × AttrVal) :=
  match resp with
  | some r =>
    if r.statusCode ≠ 0 then
      ("http.response.status_code", .num r.statusCode) ::
        (if 400 ≤ r.statusCode then [("error.type", .str (toString r.statusCode))] else [])
    else []
  | none => []

/-- The attribute dict built by
`DistributedTracingPolicy._set_http_client_span_attributes`. -/
def httpClientAttrs (rq : HttpRequestM) (resp : Option HttpResponseM) :
    List (String × AttrVal) :=
  methodUrlChunk rq ++ serverAddressChunk rq.url ++ serverPortChunk rq.url ++
    userAgentChunk rq ++ statusChunk resp

/-- `DistributedTracingPolicy._set_http_client_span_attributes`: build the
attribute dict and `span.set_attributes` it. -/
def set_http_client_span_attributes (span : SpanM) (rq : HttpRequestM)
    (resp : Option HttpResponseM) : SpanM :=
  { span with attrs := setAttrs span.attrs (httpClientAttrs rq resp) }

/-- Modelled from the spec: the plugin span's `set_http_attributes`
(external `azure.core.tracing` plugin code, not under the sources here)
records the same standard HTTP attributes on the span; it touches only
attributes. -/
def pluginSetHttpAttrs (span : SpanM) (rq : HttpRequestM)
    (resp : Option HttpResponseM) : SpanM :=
  { span with attrs := setAttrs span.attrs (httpClientAttrs rq resp) }

/-- The `attributes` dict built at the top of
`DistributedTracingPolicy.end_span`: retry count if truthy, the
`x-ms-client-request-id` request header if truthy, and the
`x-ms-request-id` response header if the key is present. -/
def endSpanAttrs (ctx : ReqContextM) (rq : HttpRequestM)
    (resp : Option HttpResponseM) : List (String × AttrVal) :=
  (if ctx.retryCount ≠ 0 then [("http.request.resend_count", AttrVal.num ctx.retryCount)]
   else [])
  ++ (match hget rq.headers "x-ms-client-request-id" with
      | some v => if v ≠ "" then [("az.client_request_id", AttrVal.str v)] else []
      | none => [])
  ++ (match resp with
      | some r =>
        match hget r.headers "x-ms-request-id" with
        | some v => [("az.service_request_id", AttrVal.str v)]
        | none => []
      | none => [])

/-- `DistributedTracingPolicy.end_span`: no-op when `TRACING_CONTEXT` is
absent or holds a falsy span; otherwise set attributes and close the span
exactly once, on the plugin or the native path (`__exit__`, `finish`,
`end` all close).  On the native path with exception info present, an
`error.type` attribute from the exception type is set first.  The
trailing suppression-token detach changes none of the modelled state. -/
def end_span (ctx : ReqContextM) (rq : HttpRequestM) (resp : Option HttpResponseM)
    (excInfo : Option ExcInfoM) : ReqContextM :=
  match ctx.tracingContext with
  | none => ctx
  | some none => ctx
  | some (some span) =>
    let attributes := endSpanAttrs ctx rq resp
    let span2 :=
      if span.isPlugin then
        let sp := pluginSetHttpAttrs span rq resp
        let sp := { sp with attrs := setAttrs sp.attrs attributes }
        { sp with endCount := sp.endCount + 1 }
      else
        let sp := set_http_client_span_attributes span rq resp
        let sp := { sp with attrs := setAttrs sp.attrs attributes }
        let sp :=
          match excInfo with
          | some e =>
            match e.excType with
            | some (m, q) => { sp with attrs := setAttr sp.attrs "error.type" (.str (errorTypeOf m q)) }
            | none => sp
          | none => sp
        { sp with endCount := sp.endCount + 1 }
    { ctx with tracingContext := some (some span2) }

/-- `DistributedTracingPolicy.on_response`:
`self.end_span(request, response=response.http_response)`. -/
def on_response (ctx : ReqContextM) (rq : HttpRequestM) (resp : HttpResponseM) :
    ReqContextM :=
  end_span ctx rq (some resp) none

/-- `DistributedTracingPolicy.on_exception`:
`self.end_span(request, exc_info=sys.exc_info())` (the ambient exception
info is passed explicitly here). -/
def on_exception (ctx : ReqContextM) (rq : HttpRequestM) (excInfo : ExcInfoM) :
    ReqContextM :=
  end_span ctx rq none (some excInfo)

/-- The ambient settings and oracles `on_request` consults:
`settings.tracing_enabled()`, whether `settings.tracing_implementation()`
returns a plugin class, whether `get_tracer(...)` returns a tracer, and
whether the span-start steps (the namer call / span construction) raise. -/
structure TracingSettings where
  tracingEnabled : Bool
  pluginImpl : Bool
  tracerAvailable : Bool
  spanStartRaises : Bool
deriving DecidableEq, Repr

/-- The per-call `tracing_options`: the `enabled` override and call-level
attributes. -/
structure TracingOpts where
  enabled : Option Bool
  attributes : List (String × AttrVal)
deriving DecidableEq, Repr

/-- A raised Python exception (only its occurrence matters here). -/
inductive PyExc where
  | exc
deriving DecidableEq, Repr

/-- The body of the `try:` block of `DistributedTracingPolicy.on_request`:
honour the per-call and global enablement flags; create a span (plugin or
native), with attributes merged policy-level first then call-level; store
it under `TRACING_CONTEXT` (and the suppression token on the native
path); return without a span when no tracer is available.  An exception
raised while starting the span (the `spanStartRaises` oracle, covering
the namer call and span construction, which precede every context
mutation) escapes this body as `.error`. -/
def on_request_body (env : TracingSettings) (opts : TracingOpts)
    (policyAttrs : List (String × AttrVal)) (ctx : ReqContextM) :
    Except PyExc ReqContextM :=
  if opts.enabled = some false then .ok ctx
  else if env.tracingEnabled = false ∧ opts.enabled = none then .ok ctx
  else if env.spanStartRaises = true then .error .exc
  else
    let spanAttributes := setAttrs (setAttrs [] policyAttrs) opts.attributes
    if env.pluginImpl = true then
      .ok { ctx with tracingContext := some (some { attrs := spanAttributes, endCount := 0, isPlugin := true }) }
    else if env.tracerAvailable = false then .ok ctx
    else
      .ok { ctx with
        tracingContext := some (some { attrs := spanAttributes, endCount := 0, isPlugin := false }),
        suppressionToken := true }

/-- `DistributedTracingPolicy.on_request`: the body under
`try: ... except Exception: _LOGGER.warning("Unable to start network
span.")` — a raise is caught and the request proceeds with the context as
already mutated (no mutation precedes the possible raise). -/
def on_request (env : TracingSettings) (opts : TracingOpts)
    (policyAttrs : List (String × AttrVal)) (ctx : ReqContextM) : ReqContextM :=
  match on_request_body env opts policyAttrs ctx with
  | .ok c => c
  | .error _ => ctx

theorem end_span_no_span (ctx : ReqContextM) (rq : HttpRequestM)
    (resp : Option HttpResponseM) (excInfo : Option ExcInfoM)
    (h : ctx.tracingContext = none ∨ ctx.tracingContext = some none) :
    end_span ctx rq resp excInfo = ctx := by
  rcases h with h | h <;> simp [end_span, h]

theorem end_span_closes_once (ctx : ReqContextM) (rq : HttpRequestM)
    (resp : Option HttpResponseM) (excInfo : Option ExcInfoM) (sp : SpanM)
    (h : ctx.tracingContext = some (some sp)) :
    ∃ sp2, (end_span ctx rq resp excInfo).tracingContext = some (some sp2) ∧
      sp2.endCount = sp.endCount + 1 := by
  simp only [end_span, h]
  refine ⟨_, rfl, ?_⟩
  rcases excInfo with - | e
  · by_cases hp : sp.isPlugin <;>
      simp [hp, pluginSetHttpAttrs, set_http_client_span_attributes]
  · rcases he : e.excType with - | ⟨m, q⟩ <;> by_cases hp : sp.isPlugin <;>
      simp [hp, he, pluginSetHttpAttrs, set_http_client_span_attributes]

theorem on_request_cases (env : TracingSettings) (opts : TracingOpts)
    (policyAttrs : List (String × AttrVal)) (ctx : ReqContextM) :
    on_request env opts policyAttrs ctx = ctx ∨
    ∃ sp : SpanM, (on_request env opts policyAttrs ctx).tracingContext =
        some (some sp) ∧ sp.endCount = 0 := by
  by_cases h1 : opts.enabled = some false
  · left; simp [on_request, on_request_body, h1]
  by_cases h2 : env.tracingEnabled = false ∧ opts.enabled = none
  · left; simp [on_request, on_request_body, h1, h2]
  by_cases h3 : env.spanStartRaises = true
  · left; simp [on_request, on_request_body, h1, h2, h3]
  by_cases h4 : env.pluginImpl = true
  · right
    have hctx : (on_request env opts policyAttrs ctx).tracingContext =
        some (some ⟨setAttrs (setAttrs [] policyAttrs) opts.attributes, 0, true⟩) := by
      simp [on_request, on_request_body, h1, h2, h3, h4]
    exact ⟨_, hctx, rfl⟩
  by_cases h5 : env.tracerAvailable = false
  · left; simp [on_request, on_request_body, h1, h2, h3, h4, h5]
  · right
    have hctx : (on_request env opts policyAttrs ctx).tracingContext =
        some (some ⟨setAttrs (setAttrs [] policyAttrs) opts.attributes, 0, false⟩) := by
      simp [on_request, on_request_body, h1, h2, h3, h4, h5]
    exact ⟨_, hctx, rfl⟩

/-- C5: for every request on which the policy started a span in
`on_request`, the span is closed exactly once on every exit path: it is
stored with `endCount` 0, and both `on_response` and `on_exception` leave
it stored with `endCount` 1; if no span was started for the request,
`on_response` and `on_exception` change nothing. -/
theorem c5_span_closed_exactly_once (env : TracingSettings) (opts : TracingOpts)
    (policyAttrs : List (String × AttrVal)) (ctx : ReqContextM)
    (h0 : ctx.tracingContext = none) (rq : HttpRequestM) (resp : HttpResponseM)
    (e : ExcInfoM) :
    (∀ sp, (on_request env opts policyAttrs ctx).tracingContext = some (some sp) →
       sp.endCount = 0 ∧
       (∃ sp2, (on_response (on_request env opts policyAttrs ctx) rq resp).tracingContext =
          some (some sp2) ∧ sp2.endCount = 1) ∧
       (∃ sp3, (on_exception (on_request env opts policyAttrs ctx) rq e).tracingContext =
          some (some sp3) ∧ sp3.endCount = 1)) ∧
    ((on_request env opts policyAttrs ctx).tracingContext = none →
       on_response (on_request env opts policyAttrs ctx) rq resp =
         on_request env opts policyAttrs ctx ∧
       on_exception (on_request env opts policyAttrs ctx) rq e =
         on_request env opts policyAttrs ctx) := by
  constructor
  · intro sp hsp
    have hzero : sp.endCount = 0 := by
      rcases on_request_cases env opts policyAttrs ctx with hsame | ⟨sp0, hsp0, hz⟩
      · rw [hsame] at hsp
        rw [h0] at hsp
        cases hsp
      · rw [hsp0] at hsp
        cases hsp
        exact hz
    refine ⟨hzero, ?_, ?_⟩
    · obtain ⟨sp2, hsp2, hc⟩ := end_span_closes_once _ rq (some resp) none sp hsp
      exact ⟨sp2, hsp2, by omega⟩
    · obtain ⟨sp3, hsp3, hc⟩ := end_span_closes_once _ rq none (some e) sp hsp
      exact ⟨sp3, hsp3, by omega⟩
  · intro hnone
    exact ⟨end_span_no_span _ rq (some resp) none (Or.inl hnone),
      end_span_no_span _ rq none (some e) (Or.inl hnone)⟩

/-- C5 witness: with tracing enabled and a native tracer available, a
span is started with `endCount` 0 and each exit path stores it back with
`endCount` 1; with tracing globally disabled no span is stored and both
exit hooks are no-ops. -/
theorem c5_span_closed_exactly_once_witness :
    (∀ sp, (on_request ⟨true, false, true, false⟩ ⟨none, []⟩ []
        ⟨none, false, 0⟩).tracingContext = some (some sp) →
       sp.endCount = 0 ∧
       (∃ sp2, (on_response (on_request ⟨true, false, true, false⟩ ⟨none, []⟩ []
            ⟨none, false, 0⟩) ⟨"GET", ⟨"u", none, none⟩, []⟩ ⟨200, []⟩).tracingContext =
          some (some sp2) ∧ sp2.endCount = 1) ∧
       (∃ sp3, (on_exception (on_request ⟨true, false, true, false⟩ ⟨none, []⟩ []
            ⟨none, false, 0⟩) ⟨"GET", ⟨"u", none, none⟩, []⟩ ⟨some ("m", "E")⟩).tracingContext =
          some (some sp3) ∧ sp3.endCount = 1)) ∧
    ((on_request ⟨true, false, true, false⟩ ⟨none, []⟩ [] ⟨none, false, 0⟩).tracingContext =
        none →
       on_response (on_request ⟨true, false, true, false⟩ ⟨none, []⟩ [] ⟨none, false, 0⟩)
           ⟨"GET", ⟨"u", none, none⟩, []⟩ ⟨200, []⟩ =
         on_request ⟨true, false, true, false⟩ ⟨none, []⟩ [] ⟨none, false, 0⟩ ∧
       on_exception (on_request ⟨true, false, true, false⟩ ⟨none, []⟩ [] ⟨none, false, 0⟩)
           ⟨"GET", ⟨"u", none, none⟩, []⟩ ⟨some ("m", "E")⟩ =
         on_request ⟨true, false, true, false⟩ ⟨none, []⟩ [] ⟨none, false, 0⟩) :=
  c5_span_closed_exactly_once ⟨true, false, true, false⟩ ⟨none, []⟩ []
    ⟨none, false, 0⟩ rfl ⟨"GET", ⟨"u", none, none⟩, []⟩ ⟨200, []⟩ ⟨some ("m", "E")⟩

/-- C8: an exception raised while starting a span inside `on_request` is
caught (logged as a warning) and never propagates: whenever the `try`
body raises, `on_request` returns the context unchanged, so the request
proceeds exactly as if tracing were skipped for this call; in particular,
when span start raises on an otherwise-traced call, the body does raise,
no span is stored, and the HTTP operation is unaffected. -/
theorem c8_on_request_never_propagates (env : TracingSettings) (opts : TracingOpts)
    (policyAttrs : List (String × AttrVal)) (ctx : ReqContextM) :
    (∀ e, on_request_body env opts policyAttrs ctx = .error e →
       on_request env opts policyAttrs ctx = ctx) ∧
    (env.spanStartRaises = true → opts.enabled ≠ some false →
     ¬ (env.tracingEnabled = false ∧ opts.enabled = none) →
       on_request_body env opts policyAttrs ctx = .error .exc ∧
       on_request env opts policyAttrs ctx = ctx) := by
  constructor
  · intro e he
    simp [on_request, he]
  · intro hr h1 h2
    have hb : on_request_body env opts policyAttrs ctx = .error .exc := by
      simp [on_request_body, h1, h2, hr]
    exact ⟨hb, by simp [on_request, hb]⟩

/-- C8 witness: with tracing enabled and span start raising, the body
raises and `on_request` returns the context unchanged. -/
theorem c8_on_request_never_propagates_witness :
    on_request_body ⟨true, false, true, true⟩ ⟨none, []⟩ [] ⟨none, false, 0⟩ =
      .error .exc ∧
    on_request ⟨true, false, true, true⟩ ⟨none, []⟩ [] ⟨none, false, 0⟩ =
      ⟨none, false, 0⟩ :=
  (c8_on_request_never_propagates ⟨true, false, true, true⟩ ⟨none, []⟩ []
    ⟨none, false, 0⟩).2 rfl (by decide) (by decide)

theorem lookup_map_update (k : String) (v : AttrVal) (m : List (String × AttrVal))
    (hk : m.any (fun p => p.1 == k) = true) :
    (m.map (fun p => if p.1 == k then (k, v) else p)).lookup k = some v := by
  induction m with
  | nil => simp at hk
  | cons p t ih =>
    rcases p with ⟨a, b⟩
    simp only [List.any_cons, Bool.or_eq_true] at hk
    by_cases hp : a = k
    · subst hp
      simp [List.lookup_cons]
    · have hak : (a == k) = false := by simp [hp]
      have hka : (k == a) = false := by simp [Ne.symm hp]
      have ht : t.any (fun q => q.1 == k) = true := by
        rcases hk with hk | hk
        · exact absurd (by simpa using hk) hp
        · exact hk
      simp only [List.map_cons, hak, Bool.false_eq_true, if_false, List.lookup_cons, hka]
      exact ih ht

theorem lookup_map_update_other (k k2 : String) (v : AttrVal)
    (m : List (String × AttrVal)) (hne : k2 ≠ k) :
    (m.map (fun p => if p.1 == k then (k, v) else p)).lookup k2 = m.lookup k2 := by
  induction m with
  | nil => rfl
  | cons p t ih =>
    rcases p with ⟨a, b⟩
    by_cases ha : a = k
    · subst ha
      have hne2 : (k2 == a) = false := by simp [hne]
      simpa [List.lookup_cons, hne2] using ih
    · have hak : (a == k) = false := by simp [ha]
      simp only [List.map_cons, hak, Bool.false_eq_true, if_false, List.lookup_cons]
      rcases hka : (k2 == a) with - | -
      · exact ih
      · rfl

theorem lookup_not_any (k : String) (m : List (String × AttrVal))
    (hk : ¬ m.any (fun p => p.1 == k) = true) : m.lookup k = none := by
  induction m with
  | nil => rfl
  | cons p t ih =>
    rcases p with ⟨a, b⟩
    simp only [List.any_cons, Bool.or_eq_true] at hk
    push_neg at hk
    have ha : ¬ a = k := by simpa using hk.1
    have hka : (k == a) = false := by simp [Ne.symm ha]
    simp only [List.lookup_cons, hka]
    exact ih (by simpa using hk.2)

theorem lookup_append_right (k : String) (m m2 : List (String × AttrVal))
    (hm : m.lookup k = none) : (m ++ m2).lookup k = m2.lookup k := by
  induction m with
  | nil => rfl
  | cons p t ih =>
    rcases p with ⟨a, b⟩
    simp only [List.lookup_cons] at hm
    rcases hka : (k == a) with - | -
    · rw [List.cons_append, List.lookup_cons, hka]
      rw [hka] at hm
      exact ih hm
    · rw [hka] at hm
      cases hm

theorem lookup_setAttr_self (m : List (String × AttrVal)) (k : String) (v : AttrVal) :
    (setAttr m k v).lookup k = some v := by
  rw [setAttr]
  by_cases hany : m.any (fun p => p.1 == k) = true
  · rw [if_pos hany]
    exact lookup_map_update k v m hany
  · rw [if_neg hany]
    rw [lookup_append_right k m _ (lookup_not_any k m hany)]
    simp [List.lookup_cons]

theorem lookup_append_single_other (k k2 : String) (v : AttrVal)
    (m : List (String × AttrVal)) (hne : k2 ≠ k) :
    (m ++ [(k, v)]).lookup k2 = m.lookup k2 := by
  induction m with
  | nil =>
    have hkk : (k2 == k) = false := by simp [hne]
    simp [List.lookup_cons, hkk]
  | cons p t ih =>
    rcases p with ⟨a, b⟩
    rw [List.cons_append, List.lookup_cons, List.lookup_cons]
    rcases hka : (k2 == a) with - | -
    · exact ih
    · rfl

theorem lookup_setAttr_other (m : List (String × AttrVal)) (k k2 : String) (v : AttrVal)
    (hne : k2 ≠ k) : (setAttr m k v).lookup k2 = m.lookup k2 := by
  rw [setAttr]
  by_cases hany : m.any (fun p => p.1 == k) = true
  · rw [if_pos hany]
    exact lookup_map_update_other k k2 v m hne
  · rw [if_neg hany]
    exact lookup_append_single_other k k2 v m hne

theorem lookup_setAttrs_not_mem (m new : List (String × AttrVal)) (k : String)
    (h : ∀ p ∈ new, p.1 ≠ k) : (setAttrs m new).lookup k = m.lookup k := by
  induction new generalizing m with
  | nil => rfl
  | cons p t ih =>
    rcases p with ⟨a, b⟩
    have ha : k ≠ a := fun hc => (h (a, b) (by simp)) hc.symm
    show (setAttrs (setAttr m a b) t).lookup k = m.lookup k
    rw [ih (setAttr m a b) (fun q hq => h q (by simp [hq]))]
    exact lookup_setAttr_other m a k b ha

theorem setAttrs_append (m a b : List (String × AttrVal)) :
    setAttrs m (a ++ b) = setAttrs (setAttrs m a) b :=
  List.foldl_append _ _ _ _

theorem statusChunk_ge (r : HttpResponseM) (h : 400 ≤ r.statusCode) :
    statusChunk (some r) = [("http.response.status_code", .num r.statusCode),
      ("error.type", .str (toString r.statusCode))] := by
  simp [statusChunk, show r.statusCode ≠ 0 by omega, h]

theorem statusChunk_lt_keys (r : HttpResponseM) (h : r.statusCode < 400) :
    ∀ p ∈ statusChunk (some r), p.1 ≠ "error.type" := by
  intro p hp
  by_cases hz : r.statusCode = 0
  · simp [statusChunk, hz] at hp
  · simp [statusChunk, hz, show ¬ 400 ≤ r.statusCode by omega] at hp
    rw [hp]
    dsimp only
    decide

theorem errorType_notin_httpClientAttrs (rq : HttpRequestM) (r : HttpResponseM)
    (h : r.statusCode < 400) :
    ∀ p ∈ httpClientAttrs rq (some r), p.1 ≠ "error.type" := by
  intro p hp
  simp only [httpClientAttrs, List.mem_append] at hp
  rcases hp with (((hp | hp) | hp) | hp) | hp
  · simp [methodUrlChunk] at hp
    rcases hp with hp | hp <;> rw [hp] <;> dsimp only <;> decide
  · rcases hh : rq.url.hostname with - | host <;> simp [serverAddressChunk, hh] at hp
    rw [hp]
    dsimp only
    decide
  · rcases hh : rq.url.port with - | prt <;> simp [serverPortChunk, hh] at hp
    by_cases hz : prt ≠ 0
    · simp [hz] at hp
      rw [hp]
      dsimp only
      decide
    · simp [hz] at hp
  · rcases hh : hget rq.headers "User-Agent" with - | ua <;> simp [userAgentChunk, hh] at hp
    by_cases hz : ua ≠ ""
    · simp [hz] at hp
      rw [hp]
      dsimp only
      decide
    · simp [hz] at hp
  · exact statusChunk_lt_keys r h p hp

theorem endSpanAttrs_keys (ctx : ReqContextM) (rq : HttpRequestM)
    (resp : Option HttpResponseM) :
    ∀ p ∈ endSpanAttrs ctx rq resp, p.1 = "http.request.resend_count" ∨
      p.1 = "az.client_request_id" ∨ p.1 = "az.service_request_id" := by
  intro p hp
  simp only [endSpanAttrs, List.mem_append] at hp
  rcases hp with (hp | hp) | hp
  · by_cases hz : ctx.retryCount ≠ 0
    · simp [hz] at hp
      rw [hp]
      simp
    · simp [hz] at hp
  · rcases hh : hget rq.headers "x-ms-client-request-id" with - | v <;> simp [hh] at hp
    by_cases hz : v ≠ ""
    · simp [hz] at hp
      rw [hp]
      simp
    · simp [hz] at hp
  · rcases resp with - | r
    · simp at hp
    · rcases hh : hget r.headers "x-ms-request-id" with - | v <;> simp [hh] at hp
      rw [hp]
      simp

theorem endSpanAttrs_no_errorType (ctx : ReqContextM) (rq : HttpRequestM)
    (resp : Option HttpResponseM) :
    ∀ p ∈ endSpanAttrs ctx rq resp, p.1 ≠ "error.type" := by
  intro p hp
  rcases endSpanAttrs_keys ctx rq resp p hp with hk | hk | hk <;> rw [hk] <;> decide

theorem endSpanAttrs_no_statusCode (ctx : ReqContextM) (rq : HttpRequestM)
    (resp : Option HttpResponseM) :
    ∀ p ∈ endSpanAttrs ctx rq resp, p.1 ≠ "http.response.status_code" := by
  intro p hp
  rcases endSpanAttrs_keys ctx rq resp p hp with hk | hk | hk <;> rw [hk] <;> decide

/-- C9: when the tracing policy ends a span with a response present and
the response status code is at least 400, the span is stored with an
`error.type` attribute equal to (the string of) the status code,
alongside `http.response.status_code`; when the status code is below 400,
the success path sets no `error.type` attribute (the span's `error.type`
entry, if any, is exactly what it was before). -/
theorem c9_error_type_on_status (ctx : ReqContextM) (rq : HttpRequestM)
    (resp : HttpResponseM) (sp : SpanM)
    (hsp : ctx.tracingContext = some (some sp)) (hnat : sp.isPlugin = false) :
    ∃ sp2, (on_response ctx rq resp).tracingContext = some (some sp2) ∧
      (400 ≤ resp.statusCode →
        sp2.attrs.lookup "error.type" = some (.str (toString resp.statusCode)) ∧
        sp2.attrs.lookup "http.response.status_code" = some (.num resp.statusCode)) ∧
      (resp.statusCode < 400 →
        sp2.attrs.lookup "error.type" = sp.attrs.lookup "error.type") := by
  refine ⟨⟨setAttrs (setAttrs sp.attrs (httpClientAttrs rq (some resp)))
      (endSpanAttrs ctx rq (some resp)), sp.endCount + 1, false⟩, ?_, ?_, ?_⟩
  · simp [on_response, end_span, hsp, hnat, set_http_client_span_attributes]
  · intro hge
    dsimp only
    have hbase : httpClientAttrs rq (some resp) =
        (methodUrlChunk rq ++ serverAddressChunk rq.url ++ serverPortChunk rq.url ++
          userAgentChunk rq) ++ statusChunk (some resp) := rfl
    rw [lookup_setAttrs_not_mem _ _ _ (endSpanAttrs_no_errorType ctx rq (some resp)),
      lookup_setAttrs_not_mem _ _ _ (endSpanAttrs_no_statusCode ctx rq (some resp)),
      hbase, statusChunk_ge resp hge, setAttrs_append]
    constructor
    · show (setAttr (setAttr _ "http.response.status_code" (.num resp.statusCode))
          "error.type" (.str (toString resp.statusCode))).lookup "error.type" = _
      rw [lookup_setAttr_self]
    · show (setAttr (setAttr _ "http.response.status_code" (.num resp.statusCode))
          "error.type" (.str (toString resp.statusCode))).lookup
          "http.response.status_code" = _
      rw [lookup_setAttr_other _ _ _ _ (by decide), lookup_setAttr_self]
  · intro hlt
    dsimp only
    rw [lookup_setAttrs_not_mem _ _ _ (endSpanAttrs_no_errorType ctx rq (some resp)),
      lookup_setAttrs_not_mem _ _ _ (errorType_notin_httpClientAttrs rq resp hlt)]

/-- C9 witness: ending a native span on a 404 response records
`error.type = "404"` alongside the status code; on a 200 response no
`error.type` is added. -/
theorem c9_error_type_on_status_witness :
    (∃ sp2, (on_response ⟨some (some ⟨[], 0, false⟩), false, 0⟩
        ⟨"GET", ⟨"u", none, none⟩, []⟩ ⟨404, []⟩).tracingContext = some (some sp2) ∧
      (400 ≤ 404 →
        sp2.attrs.lookup "error.type" = some (.str (toString 404)) ∧
        sp2.attrs.lookup "http.response.status_code" = some (.num 404)) ∧
      (404 < 400 → sp2.attrs.lookup "error.type" =
        List.lookup "error.type" ([] : List (String × AttrVal)))) ∧
    (∃ sp2, (on_response ⟨some (some ⟨[], 0, false⟩), false, 0⟩
        ⟨"GET", ⟨"u", none, none⟩, []⟩ ⟨200, []⟩).tracingContext = some (some sp2) ∧
      (400 ≤ 200 →
        sp2.attrs.lookup "error.type" = some (.str (toString 200)) ∧
        sp2.attrs.lookup "http.response.status_code" = some (.num 200)) ∧
      (200 < 400 → sp2.attrs.lookup "error.type" =
        List.lookup "error.type" ([] : List (String × AttrVal)))) :=
  ⟨c9_error_type_on_status ⟨some (some ⟨[], 0, false⟩), false, 0⟩
      ⟨"GET", ⟨"u", none, none⟩, []⟩ ⟨404, []⟩ ⟨[], 0, false⟩ rfl rfl,
    c9_error_type_on_status ⟨some (some ⟨[], 0, false⟩), false, 0⟩
      ⟨"GET", ⟨"u", none, none⟩, []⟩ ⟨200, []⟩ ⟨[], 0, false⟩ rfl rfl⟩

end Tracing

namespace Polling

/-!
Modelled from the spec: the delete/recover polling method
(`AsyncDeleteRecoverPollingMethod`) of the key-vault secrets client.  Its
implementation file is not among the sources here — only its tests are
(`sdk/keyvault/azure-keyvault-secrets/tests/test_polling_method_async.py`)
— so the model below follows the specification's words for the
Long-Running-Operation poller: construction takes an initial response, a
zero-argument `command`, a `final_resource`, and an initial `finished`
flag; `run()` returns immediately when already finished; otherwise it
invokes `command()`; a resource-not-found error means "keep polling":
sleep the configured interval and retry; any other exception propagates
immediately; when `command()` returns without raising, `finished` becomes
true; `resource()` always returns the best-known final resource and is
never changed by polling.
-/

/-- Modelled from the spec: the observable outcome of one invocation of
the zero-argument `command`: return without raising, raise the
resource-not-found error, or raise any other exception. -/
inductive CmdOutcome where
  | success
  | notFound
  | failure
deriving DecidableEq, Repr

/-- Modelled from the spec: errors escaping `run()`; `fuelOut` is the
interpreter-fuel artifact, `commandFailed` a propagated non-not-found
exception. -/
inductive PollErr where
  | fuelOut
  | commandFailed
deriving DecidableEq, Repr

/-- Modelled from the spec: the polling method's state.  `command` gives
the outcome of the i-th invocation of the command; `calls` counts
invocations so far and `sleepLog` records each performed sleep's duration
(always the configured `interval`). -/
structure PollerM (α : Type) where
  finished : Bool
  resource : α
  interval : Nat
  command : Nat → CmdOutcome
  calls : Nat
  sleepLog : List Nat

/-- Modelled from the spec: the polling loop of `run()`: invoke the
command; success sets `finished`; not-found sleeps the configured
interval and retries; any other error propagates. -/
def pollLoop {α : Type} : Nat → PollerM α → Except PollErr (PollerM α)
  | 0, _ => .error .fuelOut
  | f+1, p =>
    match p.command p.calls with
    | .success => .ok { p with finished := true, calls := p.calls + 1 }
    | .notFound =>
        pollLoop f { p with calls := p.calls + 1, sleepLog := p.sleepLog ++ [p.interval] }
    | .failure => .error .commandFailed

/-- Modelled from the spec: `run()`: if already finished, return
immediately without invoking the command and without sleeping; otherwise
poll until the command succeeds. -/
def run {α : Type} (fuel : Nat) (p : PollerM α) : Except PollErr (PollerM α) :=
  if p.finished then .ok p
  else pollLoop fuel p

/-- `run()` repeated `k` times (each call with the given fuel). -/
def runMany {α : Type} (k fuel : Nat) (p : PollerM α) : Except PollErr (PollerM α) :=
  match k with
  | 0 => .ok p
  | k+1 =>
    match run fuel p with
    | .ok q => runMany k fuel q
    | .error e => .error e

/-- C6: once `finished()` is true, every subsequent call to `run()`
returns immediately without invoking the command and without sleeping,
and `resource()` returns the same final resource unchanged — for any
number of repeated `run()` calls: the whole state (including `calls`,
`sleepLog`, and `resource`) is exactly the original one. -/
theorem c6_run_idempotent_after_finished {α : Type} (p : PollerM α)
    (hfin : p.finished = true) :
    (∀ fuel, run fuel p = .ok p) ∧
    (∀ k fuel, runMany k fuel p = .ok p) := by
  have hrun : ∀ fuel, run fuel p = .ok p := by
    intro fuel
    simp [run, hfin]
  refine ⟨hrun, ?_⟩
  intro k
  induction k with
  | zero => intro fuel; rfl
  | succ k ih =>
    intro fuel
    show (match run fuel p with
      | .ok q => runMany k fuel q
      | .error e => .error e) = .ok p
    rw [hrun fuel]
    exact ih fuel

/-- C6 witness: a finished poller whose command would report failure is
returned unchanged by ten repeated runs. -/
theorem c6_run_idempotent_after_finished_witness :
    (∀ fuel, run fuel (⟨true, 7, 5, fun _ => .failure, 0, []⟩ : PollerM Nat) =
      .ok ⟨true, 7, 5, fun _ => .failure, 0, []⟩) ∧
    (∀ k fuel, runMany k fuel (⟨true, 7, 5, fun _ => .failure, 0, []⟩ : PollerM Nat) =
      .ok ⟨true, 7, 5, fun _ => .failure, 0, []⟩) :=
  c6_run_idempotent_after_finished ⟨true, 7, 5, fun _ => .failure, 0, []⟩ rfl

/-- C7: if the command raises the resource-not-found error exactly `K`
times and then returns without raising, `run()` performs exactly `K`
sleeps of the configured interval and exactly `K + 1` invocations of the
command, after which `finished()` is true (and the resource is
unchanged). -/
theorem c7_not_found_absorption {α : Type} (K : Nat) (p : PollerM α) (fuel : Nat)
    (hfin : p.finished = false)
    (hnf : ∀ j, j < K → p.command (p.calls + j) = .notFound)
    (hok : p.command (p.calls + K) = .success)
    (hfuel : K + 1 ≤ fuel) :
    run fuel p = .ok { p with
      finished := true,
      calls := p.calls + K + 1,
      sleepLog := p.sleepLog ++ List.replicate K p.interval } := by
  have hloop : ∀ (K : Nat) (q : PollerM α) (fuel : Nat),
      (∀ j, j < K → q.command (q.calls + j) = .notFound) →
      q.command (q.calls + K) = .success → K + 1 ≤ fuel →
      pollLoop fuel q = .ok { q with
        finished := true,
        calls := q.calls + K + 1,
        sleepLog := q.sleepLog ++ List.replicate K q.interval } := by
    intro K
    induction K with
    | zero =>
      intro q fuel hnf hok hfuel
      obtain ⟨f, rfl⟩ : ∃ f, fuel = f + 1 := ⟨fuel - 1, by omega⟩
      have hq : q.command q.calls = .success := by simpa using hok
      simp [pollLoop, hq]
    | succ K ih =>
      intro q fuel hnf hok hfuel
      obtain ⟨f, rfl⟩ : ∃ f, fuel = f + 1 := ⟨fuel - 1, by omega⟩
      have hq : q.command q.calls = .notFound := by simpa using hnf 0 (by omega)
      have hstep : pollLoop (f + 1) q =
          pollLoop f { q with calls := q.calls + 1, sleepLog := q.sleepLog ++ [q.interval] } := by
        simp [pollLoop, hq]
      rw [hstep]
      rw [ih { q with calls := q.calls + 1, sleepLog := q.sleepLog ++ [q.interval] } f
        (fun j hj => by
          show q.command (q.calls + 1 + j) = .notFound
          have := hnf (j + 1) (by omega)
          simpa [Nat.add_assoc, Nat.add_comm 1 j] using this)
        (by
          show q.command (q.calls + 1 + K) = .success
          have := hok
          simpa [Nat.add_assoc, Nat.add_comm 1 K] using this)
        (by omega)]
      have hcalls : q.calls + 1 + K + 1 = q.calls + (K + 1) + 1 := by omega
      have hsleep : (q.sleepLog ++ [q.interval]) ++ List.replicate K q.interval =
          q.sleepLog ++ List.replicate (K + 1) q.interval := by
        rw [List.append_assoc]
        congr 1
      simp only [hcalls, hsleep]
  rw [run, if_neg (by simp [hfin])]
  exact hloop K p fuel hnf hok hfuel

/-- C7 witness: a command that raises not-found on its first three
invocations and succeeds on the fourth drives `run` to a finished state
with exactly 4 invocations and 3 sleeps of the configured interval. -/
theorem c7_not_found_absorption_witness :
    run 4 (⟨false, 7, 5, fun i => if i < 3 then .notFound else .success, 0, []⟩ :
        PollerM Nat) =
      .ok { (⟨false, 7, 5, fun i => if i < 3 then .notFound else .success, 0, []⟩ :
          PollerM Nat) with
        finished := true,
        calls := 0 + 3 + 1,
        sleepLog := [] ++ List.replicate 3 5 } :=
  c7_not_found_absorption 3
    (⟨false, 7, 5, fun i => if i < 3 then .notFound else .success, 0, []⟩ : PollerM Nat)
    4 rfl (fun j hj => by simp [hj]) (by simp) (by omega)

end Polling
